import Mathlib

/-!
# Verification of the in-process message-routing core (`pyon/net/transport.py`)

This file gives a shallow embedding, in Lean 4, of the topic-trie pattern
matcher (`TopicTrie`) and the in-process broker (`ZeroMQRouter`, plus the
attribute-checking `LocalBroker.declare_exchange`) from
`src/pyon/net/transport.py`, and proves or refutes the behavioural properties
stated in the design document.

Modelling conventions:

* Python dicts (`self._exchanges`, `self._queues`, …) are modelled as
  association lists `List (String × α)` with first-occurrence lookup,
  replace-first update and delete-first erase.  All router dictionaries are
  only ever updated through these operations, so keys stay unique.
* A gevent `Queue` is modelled by its FIFO buffer, a `List QItem`
  (`put` appends at the tail, `get` pops the head).
* Python `assert` failures and other raised exceptions are modelled by an
  explicit `Except` result.  The error constructor used for each site is the
  error kind the design document's taxonomy assigns to that condition
  (e.g. a failed entity-existence assert is `unknownEntity`).  Exceptions
  propagate *after* any mutations already performed, so each operation
  returns the (possibly partially updated) state alongside the result.
* Greenlets/locks are not modelled; each operation is a sequential state
  transition, which is what the router's re-entrant locks enforce per
  operation.  The consumer worker loop (`_run_consumer`) is modelled by its
  single-iteration body `run_consumer_step`, and the ingress loop
  (`_run_gl_msgs`) by its single-message body `run_gl_msgs_step`.
-/

namespace Pyon

/-! ## Association lists (model of Python `dict`) -/

/-- First-occurrence lookup, the model of Python `d[k]` / `k in d`. -/
def alistFind? {α : Type} : List (String × α) → String → Option α
  | [], _ => none
  | (k, v) :: rest, key => if k = key then some v else alistFind? rest key

/-- Replace the first binding of `key`, or append a new one: Python `d[k] = v`. -/
def alistSet {α : Type} : List (String × α) → String → α → List (String × α)
  | [], key, v => [(key, v)]
  | (k, w) :: rest, key, v =>
    if k = key then (k, v) :: rest else (k, w) :: alistSet rest key v

/-- Remove the first binding of `key`: Python `del d[k]`. -/
def alistErase {α : Type} : List (String × α) → String → List (String × α)
  | [], _ => []
  | (k, v) :: rest, key => if k = key then rest else (k, v) :: alistErase rest key

theorem alistFind_set_self {α : Type} (l : List (String × α)) (k : String) (v : α) :
    alistFind? (alistSet l k v) k = some v := by
  induction l with
  | nil => simp [alistSet, alistFind?]
  | cons hd tl ih =>
    obtain ⟨k0, v0⟩ := hd
    by_cases h : k0 = k <;> simp [alistSet, alistFind?, h, ih]

theorem alistFind_set_ne {α : Type} (l : List (String × α)) (k k' : String) (v : α)
    (h : k' ≠ k) : alistFind? (alistSet l k v) k' = alistFind? l k' := by
  have hkk' : ¬ k = k' := fun hh => h hh.symm
  induction l with
  | nil => simp [alistSet, alistFind?, hkk']
  | cons hd tl ih =>
    obtain ⟨k0, v0⟩ := hd
    by_cases h0 : k0 = k
    · subst h0
      simp [alistSet, alistFind?, hkk']
    · simp [alistSet, alistFind?, h0, ih]

theorem alistFind_erase_ne {α : Type} (l : List (String × α)) (k k' : String)
    (h : k' ≠ k) : alistFind? (alistErase l k) k' = alistFind? l k' := by
  have hkk' : ¬ k = k' := fun hh => h hh.symm
  induction l with
  | nil => simp [alistErase]
  | cons hd tl ih =>
    obtain ⟨k0, v0⟩ := hd
    by_cases h0 : k0 = k
    · subst h0
      simp [alistErase, alistFind?, hkk']
    · simp [alistErase, alistFind?, h0, ih]

theorem alistFind_set_isSome {α : Type} (l : List (String × α)) (k k' : String) (v : α)
    (h : (alistFind? l k').isSome) : (alistFind? (alistSet l k v) k').isSome := by
  by_cases hk : k' = k
  · subst hk; simp [alistFind_set_self]
  · rwa [alistFind_set_ne l k k' v hk]

/-- The keys of an association list. -/
def alistKeys {α : Type} (l : List (String × α)) : List String := l.map Prod.fst

theorem alistKeys_set {α : Type} (l : List (String × α)) (k : String) (v : α) :
    alistKeys (alistSet l k v) =
      if k ∈ alistKeys l then alistKeys l else alistKeys l ++ [k] := by
  induction l with
  | nil => simp [alistSet, alistKeys]
  | cons hd tl ih =>
    obtain ⟨k0, v0⟩ := hd
    by_cases h0 : k0 = k
    · subst h0
      simp [alistSet, alistKeys]
    · have hkne : ¬ k = k0 := fun hh => h0 hh.symm
      simp only [alistKeys, alistSet, if_neg h0, List.map_cons, List.mem_cons, hkne,
        false_or] at ih ⊢
      by_cases hmem : k ∈ List.map Prod.fst tl
      · simp [hmem] at ih ⊢
        exact ih
      · simp [hmem] at ih ⊢
        exact ih

theorem alistKeys_set_nodup {α : Type} (l : List (String × α)) (k : String) (v : α)
    (h : (alistKeys l).Nodup) : (alistKeys (alistSet l k v)).Nodup := by
  rw [alistKeys_set]
  by_cases hmem : k ∈ alistKeys l
  · simp only [if_pos hmem]
    exact h
  · simp only [if_neg hmem, List.nodup_append]
    exact ⟨h, List.nodup_singleton k, by simpa [List.disjoint_singleton] using hmem⟩

theorem alistErase_sublist {α : Type} (l : List (String × α)) (k : String) :
    (alistErase l k).Sublist l := by
  induction l with
  | nil => simp [alistErase]
  | cons hd tl ih =>
    obtain ⟨k0, v0⟩ := hd
    by_cases h0 : k0 = k
    · simp [alistErase, h0]
    · simpa [alistErase, h0] using List.Sublist.cons₂ (k0, v0) ih

theorem alistKeys_erase_nodup {α : Type} (l : List (String × α)) (k : String)
    (h : (alistKeys l).Nodup) : (alistKeys (alistErase l k)).Nodup :=
  List.Nodup.sublist (List.Sublist.map Prod.fst (alistErase_sublist l k)) h

theorem alistFind_eq_none_of_not_mem {α : Type} (l : List (String × α)) (k : String)
    (h : k ∉ alistKeys l) : alistFind? l k = none := by
  induction l with
  | nil => simp [alistFind?]
  | cons hd tl ih =>
    obtain ⟨k0, v0⟩ := hd
    rw [show alistKeys ((k0, v0) :: tl) = k0 :: alistKeys tl from rfl] at h
    simp only [List.mem_cons, not_or] at h
    have h1 : ¬ k0 = k := fun hh => h.1 hh.symm
    simp [alistFind?, h1, ih h.2]

theorem alistFind_erase_self_of_nodup {α : Type} (l : List (String × α)) (k : String)
    (h : (alistKeys l).Nodup) : alistFind? (alistErase l k) k = none := by
  induction l with
  | nil => simp [alistErase, alistFind?]
  | cons hd tl ih =>
    obtain ⟨k0, v0⟩ := hd
    rw [show alistKeys ((k0, v0) :: tl) = k0 :: alistKeys tl from rfl] at h
    obtain ⟨hnot, hnd⟩ := List.nodup_cons.mp h
    by_cases h0 : k0 = k
    · subst h0
      simpa [alistErase] using alistFind_eq_none_of_not_mem tl k0 hnot
    · simp [alistErase, alistFind?, h0, ih hnd]

/-! ## Topic splitting

`TopicTrie` splits topic strings on `"."` (`topic_tree.split(".")` at
`transport.py:451,467,484`).  `splitDot` mirrors Python `str.split(".")`
character by character, so it is kernel-evaluable.
-/

/-- Helper for `splitDot`: walks the characters, cutting at each dot. -/
def splitAux : List Char → List Char → List (List Char)
  | [], acc => [acc.reverse]
  | c :: rest, acc =>
    if c = '.' then acc.reverse :: splitAux rest [] else splitAux rest (c :: acc)

/-- Python `s.split(".")`. -/
def splitDot (s : String) : List String :=
  (splitAux s.toList []).map (fun cs => String.mk cs)

/-! ## TopicTrie (`transport.py:362-485`) -/

/-- Model of `TopicTrie.Node` (`transport.py:375-437`): a token (`None` for the root),
a list of patterns, and children keyed by token.  The children dict is
modelled as an association list with unique keys. -/
inductive Node where
  | mk (token : Option String) (patterns : List String) (children : List (String × Node)) : Node

def Node.patterns : Node → List String
  | .mk _ p _ => p

def Node.children : Node → List (String × Node)
  | .mk _ _ c => c

/-- Lookup of `self.children[token]` (first match; dict keys are unique). -/
def lookupChild : List (String × Node) → String → Option Node
  | [], _ => none
  | (k, n) :: rest, tok => if k = tok then some n else lookupChild rest tok

/-- Store a child under `token`, replacing any existing one (dict assignment). -/
def setChild : List (String × Node) → String → Node → List (String × Node)
  | [], tok, nd => [(tok, nd)]
  | (k, v) :: rest, tok, nd =>
    if k = tok then (k, nd) :: rest else (k, v) :: setChild rest tok nd

/-- Model of `Node.get_all_matches` (`transport.py:401-437`).  At a node with remaining
`topics`: terminal nodes return their patterns; otherwise results come from
the literal child, the `*` child, and — if a `#` child exists — from
descending into the `#` child with every suffix `rem_tokens[i:]` for
`i ∈ [0, len(rem_tokens))` (collected into a set, i.e. deduplicated) plus the
`#` child's own patterns. -/
def Node.get_all_matches (n : Node) (topics : List String) : List String :=
  match topics with
  | [] => n.patterns
  | cur :: rem =>
    (match lookupChild n.children cur with
     | some c => c.get_all_matches rem
     | none => []) ++
    (match lookupChild n.children "*" with
     | some c => c.get_all_matches rem
     | none => []) ++
    (match lookupChild n.children "#" with
     | some h =>
       (((List.range rem.length).map (fun i => h.get_all_matches (rem.drop i))).flatten).dedup
         ++ h.patterns
     | none => [])
termination_by topics.length
decreasing_by
  · simp
  · simp
  · simp [List.length_drop]; omega

/-- The descend-or-create loop of `add_topic_tree` (`transport.py:445-459`):
walk the token list with `get_or_create_child`, then append the pattern at
the terminal node unless it is already present. -/
def Node.add_at : Node → List String → String → Node
  | .mk t p c, [], pattern => .mk t (if pattern ∈ p then p else p ++ [pattern]) c
  | .mk t p c, tok :: rest, pattern =>
    let child := (lookupChild c tok).getD (.mk (some tok) [] [])
    .mk t p (setChild c tok (child.add_at rest pattern))

/-- The loop of `remove_topic_tree` (`transport.py:461-475`): the same
descend-or-create walk (missing nodes are created — the known quirk), then
the pattern is removed from the terminal node if present
(`list.remove` removes the first occurrence). -/
def Node.remove_at : Node → List String → String → Node
  | .mk t p c, [], pattern => .mk t (if pattern ∈ p then p.erase pattern else p) c
  | .mk t p c, tok :: rest, pattern =>
    let child := (lookupChild c tok).getD (.mk (some tok) [] [])
    .mk t p (setChild c tok (child.remove_at rest pattern))

/-- Model of `TopicTrie` (`transport.py:439-443`): a dummy root node. -/
structure TopicTrie where
  root : Node

/-- Model of `TopicTrie()`: a root with token `None`, no patterns, no children. -/
def TopicTrie.empty : TopicTrie := ⟨.mk none [] []⟩

/-- Model of `TopicTrie.add_topic_tree` (`transport.py:445-459`). -/
def TopicTrie.add_topic_tree (t : TopicTrie) (topic_tree pattern : String) : TopicTrie :=
  ⟨t.root.add_at (splitDot topic_tree) pattern⟩

/-- Model of `TopicTrie.remove_topic_tree` (`transport.py:461-475`). -/
def TopicTrie.remove_topic_tree (t : TopicTrie) (topic_tree pattern : String) : TopicTrie :=
  ⟨t.root.remove_at (splitDot topic_tree) pattern⟩

/-- Model of `TopicTrie.get_all_matches` (`transport.py:477-485`): split the key and
wrap the node results in a set.  We keep a deduplicated list; the observable
is membership. -/
def TopicTrie.get_all_matches (t : TopicTrie) (topic_tree : String) : List String :=
  (t.root.get_all_matches (splitDot topic_tree)).dedup

/-! ### Trie lemmas

`patternsAt n path` reads the patterns stored at the node reached from `n`
along `path` (an empty list if there is no such node); every pattern a match
returns is stored at some path, and `add_at`/`remove_at` change the stored
patterns only at their target path.
-/

/-- Patterns stored at the end of a token path. -/
def patternsAt : Node → List String → List String
  | n, [] => n.patterns
  | n, t :: ts =>
    match lookupChild n.children t with
    | some c => patternsAt c ts
    | none => []

/-- Well-formedness: every node's pattern list is duplicate-free (guaranteed
by the membership guard in `add_topic_tree`). -/
inductive NodeWF : Node → Prop where
  | mk : ∀ (t : Option String) (ps : List String) (cs : List (String × Node)),
      ps.Nodup → (∀ pr ∈ cs, NodeWF pr.2) → NodeWF (.mk t ps cs)

theorem NodeWF.patterns_nodup {n : Node} (h : NodeWF n) : n.patterns.Nodup := by
  cases h with
  | mk t ps cs hps hcs => exact hps

theorem NodeWF.child {n : Node} (h : NodeWF n) {tok : String} {c : Node}
    (hc : lookupChild n.children tok = some c) : NodeWF c := by
  cases h with
  | mk t ps cs hps hcs =>
    induction cs with
    | nil => simp [lookupChild, Node.children] at hc
    | cons hd tl ih =>
      obtain ⟨k0, n0⟩ := hd
      simp only [Node.children, lookupChild] at hc
      by_cases h0 : k0 = tok
      · simp [h0] at hc
        exact hc ▸ hcs (k0, n0) (by simp)
      · exact ih (fun pr hpr => hcs pr (by simp [hpr])) (by simpa [h0, Node.children] using hc)

theorem nodeWF_empty (t : Option String) : NodeWF (.mk t [] []) := by
  constructor
  · exact List.nodup_nil
  · intro pr hpr
    simp at hpr

theorem patternsAt_empty_node (t : Option String) (path : List String) :
    patternsAt (.mk t [] []) path = [] := by
  cases path <;> simp [patternsAt, Node.patterns, Node.children, lookupChild]

theorem lookup_setChild (c : List (String × Node)) (tok x : String) (nd : Node) :
    lookupChild (setChild c tok nd) x = if x = tok then some nd else lookupChild c x := by
  induction c with
  | nil =>
    by_cases h : x = tok
    · simp [setChild, lookupChild, h]
    · have h2 : ¬ tok = x := fun hh => h hh.symm
      simp [setChild, lookupChild, h, h2]
  | cons hd tl ih =>
    obtain ⟨k0, n0⟩ := hd
    by_cases h0 : k0 = tok
    · subst h0
      by_cases h : x = k0
      · subst h
        simp [setChild, lookupChild]
      · have h2 : ¬ k0 = x := fun hh => h hh.symm
        simp [setChild, lookupChild, h, h2]
    · by_cases hx : k0 = x
      · have h2 : ¬ x = tok := fun hh => h0 (hx.trans hh)
        simp [setChild, lookupChild, h0, hx, h2]
      · simp [setChild, lookupChild, h0, hx, ih]

theorem setChild_mem {c : List (String × Node)} {tok : String} {nd : Node} :
    ∀ pr ∈ setChild c tok nd, pr ∈ c ∨ pr = (tok, nd) := by
  induction c with
  | nil =>
    intro pr hpr
    simp [setChild] at hpr
    exact Or.inr hpr
  | cons hd tl ih =>
    obtain ⟨k0, n0⟩ := hd
    intro pr hpr
    by_cases h0 : k0 = tok
    · rw [show setChild ((k0, n0) :: tl) tok nd = (k0, nd) :: tl from by
        simp [setChild, h0]] at hpr
      rcases List.mem_cons.mp hpr with h | h
      · exact Or.inr (by rw [h, h0])
      · exact Or.inl (List.mem_cons_of_mem _ h)
    · rw [show setChild ((k0, n0) :: tl) tok nd = (k0, n0) :: setChild tl tok nd from by
        simp [setChild, h0]] at hpr
      rcases List.mem_cons.mp hpr with h | h
      · exact Or.inl (by rw [h]; exact List.mem_cons_self _ _)
      · rcases ih pr h with h2 | h2
        · exact Or.inl (List.mem_cons_of_mem _ h2)
        · exact Or.inr h2

theorem NodeWF.add_at {pat : String} :
    ∀ (p : List String) (n : Node), NodeWF n → NodeWF (n.add_at p pat) := by
  intro p
  induction p with
  | nil =>
    intro n h
    obtain ⟨t, ps, cs⟩ := n
    cases h with
    | mk _ _ _ hps hcs =>
      refine NodeWF.mk _ _ _ ?_ hcs
      by_cases hmem : pat ∈ ps
      · simpa [hmem] using hps
      · simp only [if_neg hmem, List.nodup_append]
        exact ⟨hps, List.nodup_singleton pat, by simpa [List.disjoint_singleton] using hmem⟩
  | cons tok rest ih =>
    intro n h
    obtain ⟨t, ps, cs⟩ := n
    cases h with
    | mk _ _ _ hps hcs =>
      refine NodeWF.mk _ _ _ hps ?_
      intro pr hpr
      rcases setChild_mem pr hpr with h2 | h2
      · exact hcs pr h2
      · subst h2
        refine ih _ ?_
        cases hc : lookupChild cs tok with
        | none => simpa [hc] using nodeWF_empty (some tok)
        | some c =>
          have := NodeWF.child (NodeWF.mk t ps cs hps hcs) (by simpa [Node.children] using hc)
          simpa [hc] using this

theorem NodeWF.remove_at {pat : String} :
    ∀ (p : List String) (n : Node), NodeWF n → NodeWF (n.remove_at p pat) := by
  intro p
  induction p with
  | nil =>
    intro n h
    obtain ⟨t, ps, cs⟩ := n
    cases h with
    | mk _ _ _ hps hcs =>
      refine NodeWF.mk _ _ _ ?_ hcs
      by_cases hmem : pat ∈ ps
      · simpa [hmem] using hps.erase pat
      · simpa [hmem] using hps
  | cons tok rest ih =>
    intro n h
    obtain ⟨t, ps, cs⟩ := n
    cases h with
    | mk _ _ _ hps hcs =>
      refine NodeWF.mk _ _ _ hps ?_
      intro pr hpr
      rcases setChild_mem pr hpr with h2 | h2
      · exact hcs pr h2
      · subst h2
        refine ih _ ?_
        cases hc : lookupChild cs tok with
        | none => simpa [hc] using nodeWF_empty (some tok)
        | some c =>
          have := NodeWF.child (NodeWF.mk t ps cs hps hcs) (by simpa [Node.children] using hc)
          simpa [hc] using this

theorem mem_patternsAt_remove_at {q pat : String} :
    ∀ (p : List String) (n : Node) (path : List String),
      q ∈ patternsAt (n.remove_at p pat) path → q ∈ patternsAt n path := by
  intro p
  induction p with
  | nil =>
    intro n path h
    obtain ⟨t, ps, cs⟩ := n
    cases path with
    | nil =>
      simp only [Node.remove_at, patternsAt, Node.patterns] at h ⊢
      by_cases hmem : pat ∈ ps
      · rw [if_pos hmem] at h
        exact List.mem_of_mem_erase h
      · rwa [if_neg hmem] at h
    | cons x xs =>
      simpa [Node.remove_at, patternsAt, Node.children] using h
  | cons tok rest ih =>
    intro n path h
    obtain ⟨t, ps, cs⟩ := n
    cases path with
    | nil =>
      simpa [Node.remove_at, patternsAt, Node.patterns] using h
    | cons x xs =>
      simp only [Node.remove_at, patternsAt, Node.children] at h ⊢
      rw [lookup_setChild] at h
      by_cases hx : x = tok
      · rw [if_pos hx] at h
        subst hx
        have h2 := ih _ _ h
        cases hc : lookupChild cs x with
        | none =>
          rw [hc] at h2
          simp only [Option.getD] at h2
          rw [patternsAt_empty_node] at h2
          exact absurd h2 (List.not_mem_nil q)
        | some c =>
          rw [hc] at h2
          simpa using h2
      · rw [if_neg hx] at h
        exact h

theorem mem_patternsAt_add_at {q pat : String} :
    ∀ (p : List String) (n : Node) (path : List String),
      q ∈ patternsAt (n.add_at p pat) path →
        q ∈ patternsAt n path ∨ (q = pat ∧ path = p) := by
  intro p
  induction p with
  | nil =>
    intro n path h
    obtain ⟨t, ps, cs⟩ := n
    cases path with
    | nil =>
      simp only [Node.add_at, patternsAt, Node.patterns] at h ⊢
      by_cases hmem : pat ∈ ps
      · rw [if_pos hmem] at h
        exact Or.inl h
      · rw [if_neg hmem] at h
        rcases List.mem_append.mp h with h2 | h2
        · exact Or.inl h2
        · exact Or.inr ⟨by simpa using h2, by trivial⟩
    | cons x xs =>
      exact Or.inl (by simpa [Node.add_at, patternsAt, Node.children] using h)
  | cons tok rest ih =>
    intro n path h
    obtain ⟨t, ps, cs⟩ := n
    cases path with
    | nil =>
      exact Or.inl (by simpa [Node.add_at, patternsAt, Node.patterns] using h)
    | cons x xs =>
      simp only [Node.add_at, patternsAt, Node.children] at h ⊢
      rw [lookup_setChild] at h
      by_cases hx : x = tok
      · rw [if_pos hx] at h
        subst hx
        rcases ih _ _ h with h2 | h2
        · cases hc : lookupChild cs x with
          | none =>
            rw [hc] at h2
            simp only [Option.getD] at h2
            rw [patternsAt_empty_node] at h2
            exact absurd h2 (List.not_mem_nil q)
          | some c =>
            rw [hc] at h2
            exact Or.inl (by simpa using h2)
        · exact Or.inr ⟨h2.1, by rw [h2.2]⟩
      · rw [if_neg hx] at h
        exact Or.inl h

theorem not_mem_patternsAt_remove_at_self {pat : String} :
    ∀ (p : List String) (n : Node), NodeWF n → pat ∉ patternsAt (n.remove_at p pat) p := by
  intro p
  induction p with
  | nil =>
    intro n h
    obtain ⟨t, ps, cs⟩ := n
    cases h with
    | mk _ _ _ hps hcs =>
      simp only [Node.remove_at, patternsAt, Node.patterns]
      by_cases hmem : pat ∈ ps
      · rw [if_pos hmem]
        intro hcon
        exact absurd ((hps.mem_erase_iff).mp hcon).1 (by simp)
      · rwa [if_neg hmem]
  | cons tok rest ih =>
    intro n h
    obtain ⟨t, ps, cs⟩ := n
    cases h with
    | mk _ _ _ hps hcs =>
      simp only [Node.remove_at, patternsAt, Node.children]
      rw [lookup_setChild, if_pos rfl]
      cases hc : lookupChild cs tok with
      | none =>
        simpa [hc] using ih _ (nodeWF_empty (some tok))
      | some c =>
        have hwf := NodeWF.child (NodeWF.mk t ps cs hps hcs) (by simpa [Node.children] using hc)
        simpa [hc] using ih _ hwf

theorem mem_matches_exists_path {q : String} :
    ∀ (k : Nat) (n : Node) (topics : List String), topics.length ≤ k →
      q ∈ n.get_all_matches topics → ∃ path, q ∈ patternsAt n path := by
  intro k
  induction k with
  | zero =>
    intro n topics hlen h
    have hnil : topics = [] := List.length_eq_zero.mp (Nat.le_zero.mp hlen)
    subst hnil
    exact ⟨[], by simpa [Node.get_all_matches, patternsAt] using h⟩
  | succ k ih =>
    intro n topics hlen h
    cases topics with
    | nil => exact ⟨[], by simpa [Node.get_all_matches, patternsAt] using h⟩
    | cons cur rem =>
      have hrem : rem.length ≤ k := Nat.le_of_succ_le_succ (by simpa using hlen)
      simp only [Node.get_all_matches, List.mem_append] at h
      rcases h with (h | h) | h
      · cases hc : lookupChild n.children cur with
        | none => simp [hc] at h
        | some c =>
          rw [hc] at h
          obtain ⟨path, hp⟩ := ih c rem hrem h
          refine ⟨cur :: path, ?_⟩
          cases n
          simpa [patternsAt, Node.children] using (by simpa [Node.children] using hc) ▸ hp
      · cases hc : lookupChild n.children "*" with
        | none => simp [hc] at h
        | some c =>
          rw [hc] at h
          obtain ⟨path, hp⟩ := ih c rem hrem h
          refine ⟨"*" :: path, ?_⟩
          cases n
          simpa [patternsAt, Node.children] using (by simpa [Node.children] using hc) ▸ hp
      · cases hc : lookupChild n.children "#" with
        | none => simp [hc] at h
        | some hn =>
          rw [hc] at h
          rcases List.mem_append.mp h with h2 | h2
          · rw [List.mem_dedup, List.mem_flatten] at h2
            obtain ⟨l, hl, hql⟩ := h2
            rw [List.mem_map] at hl
            obtain ⟨i, hi, hfl⟩ := hl
            rw [List.mem_range] at hi
            have hdrop : (rem.drop i).length ≤ k := by
              rw [List.length_drop]
              omega
            obtain ⟨path, hp⟩ := ih hn (rem.drop i) hdrop (hfl ▸ hql)
            refine ⟨"#" :: path, ?_⟩
            cases n
            simpa [patternsAt, Node.children] using (by simpa [Node.children] using hc) ▸ hp
          · refine ⟨["#"], ?_⟩
            cases n
            simpa [patternsAt, Node.children, Node.patterns] using (by simpa [Node.children] using hc) ▸ h2

/-! ## Broker data model (`ZeroMQRouter`, `transport.py:494-733`) -/

/-- An item in a queue buffer: either a published message tuple
`(exchange, routing_key, body, props)` (`transport.py:575`) or the
`ConsumerClosedMessage` sentinel (`transport.py:501-505,658`).  The
`props` dict is opaque to the router; we model it as a string map. -/
inductive QItem where
  | consumerClosed
  | msg (exchange routing_key body : String) (props : List (String × String))
deriving DecidableEq

/-- Raised errors.  Python raises `AssertionError`/`KeyError`/`AttributeError`;
each site is labelled with the error kind the design taxonomy gives it
(`unknownEntity` for a failed entity-existence assert, `declareConflict` and
`unsupportedType` for `LocalBroker.declare_exchange`, `keyMissing` /
`attributeMissing` for `KeyError` / `AttributeError`). -/
inductive BrokerError where
  | unknownEntity (what : String)
  | declareConflict (what : String)
  | unsupportedType (what : String)
  | assertionFailed (what : String)
  | keyMissing (what : String)
  | attributeMissing (what : String)
deriving DecidableEq

/-- Declared exchange attributes (`exchange_type`, `durable`, `auto_delete`
keyword arguments). -/
structure ExchangeAttrs where
  exchange_type : String
  durable : Bool
  auto_delete : Bool
deriving DecidableEq

/-- Modelled from the spec: `pyon.util.pool.IDPool` is imported from
`pyon/util/pool.py`, which is not among the sources; the design document
says consumer tags are "drawn from a reusable integer pool" recycled "via a
free-list pool".  `get_id` hands out a freed id if one exists, else the next
counter value; `release_id` returns an id to the free list. -/
structure IDPool where
  free : List Nat
  next_id : Nat
deriving DecidableEq

def IDPool.get_id : IDPool → Nat × IDPool
  | ⟨[], n⟩ => (n, ⟨[], n + 1⟩)
  | ⟨f :: fs, n⟩ => (f, ⟨fs, n⟩)

def IDPool.release_id (p : IDPool) (i : Nat) : IDPool := ⟨i :: p.free, p.next_id⟩

/-- One entry of `self._consumers[queue]` (`transport.py:642`): the tuple
`(new_ctag, callback, no_ack, exclusive, gl)`.  The callback (an opaque
function) and the greenlet handle carry no router state and are omitted. -/
structure ConsumerRec where
  ctag : String
  no_ack : Bool
  exclusive : Bool
deriving DecidableEq

/-- The mutable state of a `ZeroMQRouter` (`transport.py:507-529`). -/
structure RouterState where
  exchanges : List (String × TopicTrie)
  queues : List (String × List QItem)
  bindings_by_queue : List (String × List (String × String))
  consumers : List (String × List ConsumerRec)
  consumers_by_ctag : List (String × String)
  ctag_pool : IDPool
  unacked : List (String × (String × String × QItem))
  errors : List BrokerError

/-- A fresh router: every table empty (`transport.py:507-529`). -/
def initRouter : RouterState :=
  { exchanges := [], queues := [], bindings_by_queue := [], consumers := [],
    consumers_by_ctag := [], ctag_pool := ⟨[], 0⟩, unacked := [], errors := [] }

namespace ZeroMQRouter

/-- Model of `declare_exchange` (`transport.py:577-580`): creates an empty `TopicTrie`
if the name is absent; the keyword attributes are accepted (`**kwargs`) but
never inspected.  No code path raises, so the result is always `.ok`. -/
def declare_exchange (exchange : String) (_attrs : ExchangeAttrs) (s : RouterState) :
    Except BrokerError Unit × RouterState :=
  (.ok (),
   if (alistFind? s.exchanges exchange).isSome then s
   else { s with exchanges := alistSet s.exchanges exchange TopicTrie.empty })

/-- Model of `delete_exchange` (`transport.py:582-585`): delete if present, silently
do nothing otherwise. -/
def delete_exchange (exchange : String) (s : RouterState) : RouterState :=
  if (alistFind? s.exchanges exchange).isSome then
    { s with exchanges := alistErase s.exchanges exchange }
  else s

/-- Python `str(uuid4())[0:10]`: the first ten characters of the string. -/
def take10 (u : String) : String := String.mk (u.toList.take 10)

/-- The minting loop of `declare_queue` (`transport.py:592-596`):
`while True: proposed = "q-%s" % str(uuid4())[0:10]; if proposed not in
self._queues: break`.  The stream of `str(uuid4())` draws is the oracle
`gen`; the loop is run on `fuel` candidates starting at draw `k` and
returns `none` if all of them collide. -/
def mint_queue_name (gen : Nat → String) (queues : List (String × List QItem)) :
    Nat → Nat → Option String
  | 0, _ => none
  | Nat.succ fuel, k =>
    let proposed := "q-" ++ take10 (gen k)
    if (alistFind? queues proposed).isSome then mint_queue_name gen queues fuel (k + 1)
    else some proposed

/-- Model of `declare_queue` (`transport.py:587-601`): mint a fresh name when the
given one is `None` or `""`; create an empty queue if absent; return the
(possibly minted) name.  `none` only when the minting loop exhausts `fuel`. -/
def declare_queue (queue : Option String) (gen : Nat → String) (fuel : Nat)
    (s : RouterState) : Option (String × RouterState) :=
  let minted : Option String :=
    match queue with
    | none => mint_queue_name gen s.queues fuel 0
    | some q => if q = "" then mint_queue_name gen s.queues fuel 0 else some q
  match minted with
  | none => none
  | some q =>
    some (q,
      if (alistFind? s.queues q).isSome then s
      else { s with queues := alistSet s.queues q [] })

/-- The binding-removal loop of `delete_queue` (`transport.py:608-611`):
for each recorded `(ex, binding)`, if the exchange still exists, remove
`binding → queue` from its trie. -/
def removeBindingsFold (exs : List (String × TopicTrie)) (bs : List (String × String))
    (queue : String) : List (String × TopicTrie) :=
  bs.foldl
    (fun acc pr =>
      match alistFind? acc pr.1 with
      | some trie => alistSet acc pr.1 (trie.remove_topic_tree pr.2 queue)
      | none => acc)
    exs

/-- Model of `delete_queue` (`transport.py:603-611`): remove the queue if present and
cascade over `self._bindings_by_queue[queue]` (a `defaultdict`, so the read
inserts an empty list when the key is absent); missing exchanges are
skipped.  The recorded binding list itself is left in place. -/
def delete_queue (queue : String) (s : RouterState) : RouterState :=
  if (alistFind? s.queues queue).isSome then
    let bs := (alistFind? s.bindings_by_queue queue).getD []
    { s with queues := alistErase s.queues queue,
             bindings_by_queue := alistSet s.bindings_by_queue queue bs,
             exchanges := removeBindingsFold s.exchanges bs queue }
  else s

/-- Model of `bind` (`transport.py:613-619`): assert both names exist, then add
`binding → queue` to the exchange trie and record `(exchange, binding)` in
`self._bindings_by_queue[queue]` (a `defaultdict`). -/
def bind (exchange queue binding : String) (s : RouterState) :
    Except BrokerError Unit × RouterState :=
  match alistFind? s.exchanges exchange with
  | none => (.error (.unknownEntity exchange), s)
  | some trie =>
    if (alistFind? s.queues queue).isSome then
      (.ok (),
       { s with
         exchanges := alistSet s.exchanges exchange (trie.add_topic_tree binding queue),
         bindings_by_queue :=
           alistSet s.bindings_by_queue queue
             ((alistFind? s.bindings_by_queue queue).getD [] ++ [(exchange, binding)]) })
    else (.error (.unknownEntity queue), s)

/-- The removal loop of `unbind` (`transport.py:627-631`): pop the first
recorded tuple equal to `(exchange, binding)`. -/
def removeFirstBinding : List (String × String) → String → String → List (String × String)
  | [], _, _ => []
  | (e, b) :: rest, ex, bi =>
    if e = ex ∧ b = bi then rest else (e, b) :: removeFirstBinding rest ex bi

/-- Model of `unbind` (`transport.py:621-631`): assert both names exist, remove the
pattern from the trie, pop the first matching recorded binding. -/
def unbind (exchange queue binding : String) (s : RouterState) :
    Except BrokerError Unit × RouterState :=
  match alistFind? s.exchanges exchange with
  | none => (.error (.unknownEntity exchange), s)
  | some trie =>
    if (alistFind? s.queues queue).isSome then
      (.ok (),
       { s with
         exchanges := alistSet s.exchanges exchange (trie.remove_topic_tree binding queue),
         bindings_by_queue :=
           alistSet s.bindings_by_queue queue
             (removeFirstBinding ((alistFind? s.bindings_by_queue queue).getD [])
               exchange binding) })
    else (.error (.unknownEntity queue), s)

/-- The delivery loop of `_route` (`transport.py:572-575`): for each matched
queue name, `assert q in self._queues` then `put` the message at the tail.
The assert aborts the loop, leaving the deliveries already made. -/
def routeLoop (m : QItem) : List String → RouterState →
    Except BrokerError Unit × RouterState
  | [], s => (.ok (), s)
  | q :: qs, s =>
    match alistFind? s.queues q with
    | some buf => routeLoop m qs { s with queues := alistSet s.queues q (buf ++ [m]) }
    | none => (.error (.assertionFailed q), s)

/-- Model of `_route` (`transport.py:560-575`): assert the exchange exists
("Unknown exchange %s"), match the routing key against its trie, deliver to
each matched queue. -/
def route (exchange routing_key body : String) (props : List (String × String))
    (s : RouterState) : Except BrokerError Unit × RouterState :=
  match alistFind? s.exchanges exchange with
  | none => (.error (.unknownEntity ("Unknown exchange " ++ exchange)), s)
  | some trie =>
    routeLoop (.msg exchange routing_key body props)
      (trie.get_all_matches routing_key) s

/-- One iteration of `_run_gl_msgs` (`transport.py:548-558`): route the
message; any raised exception is appended to `self.errors` and swallowed.
(The msgpack round-trip of the properties is the opaque wire serialization
and is not modelled.) -/
def run_gl_msgs_step (exchange routing_key body : String)
    (props : List (String × String)) (s : RouterState) : RouterState :=
  match route exchange routing_key body props s with
  | (.ok _, s1) => s1
  | (.error e, s1) => { s1 with errors := s1.errors ++ [e] }

/-- Model of `_generate_ctag` (`transport.py:701-702`). -/
def generate_ctag (n : Nat) : String := "zctag-" ++ toString n

/-- Model of `_generate_dtag` (`transport.py:707-713`): `"%s-%s" % (ctag, cnt)`. -/
def generate_dtag (ctag : String) (cnt : Nat) : String := ctag ++ "-" ++ toString cnt

/-- Model of `start_consume` (`transport.py:633-645`): assert the queue exists, draw
a consumer tag from the pool, assert it is unused, spawn the worker
(`_run_consumer` receives the ctag, the queue name, the queue and the
callback — not `no_ack`), and register the consumer tuple.  The callback is
opaque and not stored in the model. -/
def start_consume (queue : String) (no_ack exclusive : Bool) (s : RouterState) :
    Except BrokerError String × RouterState :=
  if (alistFind? s.queues queue).isSome then
    let (n, pool) := s.ctag_pool.get_id
    let new_ctag := generate_ctag n
    let s1 := { s with ctag_pool := pool }
    if (alistFind? s1.consumers_by_ctag new_ctag).isSome then
      (.error (.assertionFailed new_ctag), s1)
    else
      (.ok new_ctag,
       { s1 with
         consumers :=
           alistSet s1.consumers queue
             ((alistFind? s1.consumers queue).getD [] ++
               [⟨new_ctag, no_ack, exclusive⟩]),
         consumers_by_ctag := alistSet s1.consumers_by_ctag new_ctag queue })
  else (.error (.unknownEntity queue), s)

/-- The result of one iteration of the `_run_consumer` loop. -/
inductive ConsumerStep where
  | blocked
  | closed (s : RouterState)
  | delivered (consumer_tag : String) (redelivered : Bool) (exchange routing_key : String)
      (delivery_tag : String) (headers : List (String × String)) (body : String)
      (s : RouterState)

/-- One iteration of `_run_consumer` (`transport.py:667-699`) for consumer
`ctag` on `queue_name` with per-worker counter `cnt`: `get` an item
(`blocked` when the buffer is empty — the greenlet waits), exit on the close
sentinel, otherwise build the method/header frames, mint the delivery tag
and record the unacked entry `(ctag, queue_name, m)` — unconditionally;
`no_ack` is not a parameter of `_run_consumer`.  Delivery to the opaque
callback happens after this state change; callback exceptions are swallowed
(`transport.py:696-699`). -/
def run_consumer_step (ctag queue_name : String) (cnt : Nat) (s : RouterState) :
    ConsumerStep :=
  match alistFind? s.queues queue_name with
  | none => .blocked
  | some [] => .blocked
  | some (QItem.consumerClosed :: rest) =>
    .closed { s with queues := alistSet s.queues queue_name rest }
  | some (QItem.msg ex rkey body props :: rest) =>
    let dtag := generate_dtag ctag cnt
    .delivered ctag false ex rkey dtag props body
      { s with
        queues := alistSet s.queues queue_name rest,
        unacked := alistSet s.unacked dtag (ctag, queue_name, QItem.msg ex rkey body props) }

/-- Model of `ack` (`transport.py:715-719`): assert the tag is unacked, then delete
it. -/
def ack (delivery_tag : String) (s : RouterState) :
    Except BrokerError Unit × RouterState :=
  if (alistFind? s.unacked delivery_tag).isSome then
    (.ok (), { s with unacked := alistErase s.unacked delivery_tag })
  else (.error (.unknownEntity delivery_tag), s)

/-- Model of `reject` (`transport.py:721-728`): assert the tag is unacked, pop the
entry, and on `requeue` execute `self._queues[queue].append(m)`.  The
`_queues` values are `gevent.queue.Queue` objects, which expose `put`/`get`
but define no `append` method, so the attribute access raises
`AttributeError` (after a `KeyError` check on the queue lookup) — with the
unacked entry already removed. -/
def reject (delivery_tag : String) (requeue : Bool) (s : RouterState) :
    Except BrokerError Unit × RouterState :=
  match alistFind? s.unacked delivery_tag with
  | none => (.error (.unknownEntity delivery_tag), s)
  | some (_, queue, _) =>
    let s1 := { s with unacked := alistErase s.unacked delivery_tag }
    if requeue then
      match alistFind? s1.queues queue with
      | none => (.error (.keyMissing queue), s1)
      | some _ => (.error (.attributeMissing "Queue.append"), s1)
    else (.ok (), s1)

end ZeroMQRouter

/-! ## `LocalBroker.declare_exchange` (`transport.py:296-339`) -/

/-- One record of `LocalBroker._exchanges` (`transport.py:334-337`). -/
structure ExRec where
  exchange : String
  exchange_type : String
  durable : Bool
  auto_delete : Bool
deriving DecidableEq

namespace LocalBroker

/-- Model of `LocalBroker.declare_exchange` (`transport.py:325-339`): on redeclare,
assert the attributes match (`declareConflict` on mismatch); on first
declare, assert `exchange_type == 'topic'` ("Topic only supported"), then
store the record.  Returns `True`. -/
def declare_exchange (exchange exchange_type : String) (durable auto_delete : Bool)
    (s : List (String × ExRec)) : Except BrokerError Bool × List (String × ExRec) :=
  match alistFind? s exchange with
  | some exrec =>
    if exrec.exchange_type = exchange_type ∧ exrec.durable = durable ∧
        exrec.auto_delete = auto_delete then
      (.ok true, s)
    else (.error (.declareConflict exchange), s)
  | none =>
    if exchange_type = "topic" then
      (.ok true, alistSet s exchange ⟨exchange, exchange_type, durable, auto_delete⟩)
    else (.error (.unsupportedType "Topic only supported"), s)

end LocalBroker

/-! ## Operation sequences and the binding-coverage invariant

Reachable router states are those obtained by applying a list of operations
to `initRouter`.  The invariant `Inv` ties each pattern occurrence in an
exchange trie to a recorded binding in `bindings_by_queue` (plus
key-uniqueness and duplicate-freedom); it is what makes the `delete_queue`
cascade complete.
-/

/-- A fixed draw oracle standing in for `uuid4` when replaying operation
sequences (its values are irrelevant to the invariants). -/
def defaultGen : Nat → String := fun k => "00000000-0000-4000-8000-" ++ toString k

/-- The client-visible operations of the router, each applied via the
corresponding `ZeroMQRouter` function. -/
inductive Op where
  | declare_ex (name : String) (attrs : ExchangeAttrs)
  | delete_ex (name : String)
  | declare_q (name : Option String)
  | delete_q (name : String)
  | bind_op (exchange queue binding : String)
  | unbind_op (exchange queue binding : String)
  | publish_op (exchange routing_key body : String) (props : List (String × String))
  | consume_op (queue : String) (no_ack exclusive : Bool)
  | deliver_op (ctag queue : String) (cnt : Nat)
  | ack_op (delivery_tag : String)
  | reject_op (delivery_tag : String) (requeue : Bool)

/-- The state after a consumer-worker iteration (`blocked` leaves `s`). -/
def ZeroMQRouter.ConsumerStep.stateD : ZeroMQRouter.ConsumerStep → RouterState → RouterState
  | .blocked, s => s
  | .closed s1, _ => s1
  | .delivered _ _ _ _ _ _ _ s1, _ => s1

/-- Apply one operation, keeping whatever state the operation left behind
(raised errors propagate to the caller but the mutations stand). -/
def applyOp (s : RouterState) : Op → RouterState
  | .declare_ex n a => (ZeroMQRouter.declare_exchange n a s).2
  | .delete_ex n => ZeroMQRouter.delete_exchange n s
  | .declare_q q =>
    match ZeroMQRouter.declare_queue q defaultGen 1000 s with
    | some (_, s1) => s1
    | none => s
  | .delete_q n => ZeroMQRouter.delete_queue n s
  | .bind_op e q b => (ZeroMQRouter.bind e q b s).2
  | .unbind_op e q b => (ZeroMQRouter.unbind e q b s).2
  | .publish_op e r b p => ZeroMQRouter.run_gl_msgs_step e r b p s
  | .consume_op q na ex => (ZeroMQRouter.start_consume q na ex s).2
  | .deliver_op c q n => (ZeroMQRouter.run_consumer_step c q n s).stateD s
  | .ack_op t => (ZeroMQRouter.ack t s).2
  | .reject_op t rq => (ZeroMQRouter.reject t rq s).2

/-- The state reached from a fresh router by a list of operations. -/
def applyOps (ops : List Op) : RouterState := ops.foldl applyOp initRouter

/-- Router invariant relating tries, recorded bindings and queues. -/
structure Inv (s : RouterState) : Prop where
  exKN : (alistKeys s.exchanges).Nodup
  wf : ∀ exName trie, alistFind? s.exchanges exName = some trie → NodeWF trie.root
  cover : ∀ exName trie, alistFind? s.exchanges exName = some trie →
    ∀ q path, q ∈ patternsAt trie.root path →
      ∃ b, (exName, b) ∈ (alistFind? s.bindings_by_queue q).getD [] ∧ splitDot b = path
  pat_q : ∀ exName trie, alistFind? s.exchanges exName = some trie →
    ∀ q path, q ∈ patternsAt trie.root path → (alistFind? s.queues q).isSome

theorem Inv.mono {s s' : RouterState} (h : Inv s) (hex : s'.exchanges = s.exchanges)
    (hb : s'.bindings_by_queue = s.bindings_by_queue)
    (hq : ∀ q, (alistFind? s.queues q).isSome → (alistFind? s'.queues q).isSome) :
    Inv s' := by
  refine ⟨?_, ?_, ?_, ?_⟩
  · rw [hex]; exact h.exKN
  · intro exName trie hf
    exact h.wf exName trie (hex ▸ hf)
  · intro exName trie hf q path hp
    rw [hb]
    exact h.cover exName trie (hex ▸ hf) q path hp
  · intro exName trie hf q path hp
    exact hq q (h.pat_q exName trie (hex ▸ hf) q path hp)

theorem inv_initRouter : Inv initRouter := by
  refine ⟨?_, ?_, ?_, ?_⟩
  · simp [initRouter, alistKeys]
  · intro exName trie hf
    simp [initRouter, alistFind?] at hf
  · intro exName trie hf
    simp [initRouter, alistFind?] at hf
  · intro exName trie hf
    simp [initRouter, alistFind?] at hf

theorem mem_removeFirstBinding {pr : String × String} {l : List (String × String)}
    {ex bi : String} (h : pr ∈ l) (hne : pr ≠ (ex, bi)) :
    pr ∈ ZeroMQRouter.removeFirstBinding l ex bi := by
  induction l with
  | nil => simp at h
  | cons hd tl ih =>
    obtain ⟨e, b⟩ := hd
    by_cases h0 : e = ex ∧ b = bi
    · rw [show ZeroMQRouter.removeFirstBinding ((e, b) :: tl) ex bi = tl from by
        simp [ZeroMQRouter.removeFirstBinding, h0.1, h0.2]]
      rcases List.mem_cons.mp h with h1 | h1
      · exact absurd (by rw [h1, h0.1, h0.2]) hne
      · exact h1
    · rw [show ZeroMQRouter.removeFirstBinding ((e, b) :: tl) ex bi =
          (e, b) :: ZeroMQRouter.removeFirstBinding tl ex bi from by
        simp [ZeroMQRouter.removeFirstBinding, h0]]
      rcases List.mem_cons.mp h with h1 | h1
      · exact h1 ▸ List.mem_cons_self _ _
      · exact List.mem_cons_of_mem _ (ih h1)

theorem fold_find {q : String} :
    ∀ (bs : List (String × String)) (exs : List (String × TopicTrie)) (exName : String)
      (trie' : TopicTrie),
      alistFind? (ZeroMQRouter.removeBindingsFold exs bs q) exName = some trie' →
      ∃ trie, alistFind? exs exName = some trie ∧
        (∀ path q0, q0 ∈ patternsAt trie'.root path → q0 ∈ patternsAt trie.root path) ∧
        (NodeWF trie.root → NodeWF trie'.root) := by
  intro bs
  induction bs with
  | nil =>
    intro exs exName trie' hf
    exact ⟨trie', hf, fun _ _ hp => hp, fun hw => hw⟩
  | cons hd rest ih =>
    obtain ⟨e0, b0⟩ := hd
    intro exs exName trie' hf
    rw [show ZeroMQRouter.removeBindingsFold exs ((e0, b0) :: rest) q =
        ZeroMQRouter.removeBindingsFold
          (match alistFind? exs e0 with
           | some trie => alistSet exs e0 (trie.remove_topic_tree b0 q)
           | none => exs) rest q from rfl] at hf
    cases hfe : alistFind? exs e0 with
    | none =>
      rw [hfe] at hf
      exact ih _ exName trie' hf
    | some trie0 =>
      rw [hfe] at hf
      obtain ⟨trie1, hf1, hmono1, hwf1⟩ := ih _ exName trie' hf
      by_cases hen : exName = e0
      · subst hen
        rw [alistFind_set_self] at hf1
        obtain rfl : trie1 = trie0.remove_topic_tree b0 q := by
          exact (Option.some_injective _ hf1).symm
        refine ⟨trie0, hfe, ?_, ?_⟩
        · intro path q0 hp
          exact mem_patternsAt_remove_at _ _ _ (hmono1 path q0 hp)
        · intro hw
          exact hwf1 (NodeWF.remove_at _ _ hw)
      · rw [alistFind_set_ne _ _ _ _ hen] at hf1
        exact ⟨trie1, hf1, hmono1, hwf1⟩

theorem fold_keys_nodup {q : String} :
    ∀ (bs : List (String × String)) (exs : List (String × TopicTrie)),
      (alistKeys exs).Nodup →
      (alistKeys (ZeroMQRouter.removeBindingsFold exs bs q)).Nodup := by
  intro bs
  induction bs with
  | nil => intro exs h; exact h
  | cons hd rest ih =>
    obtain ⟨e0, b0⟩ := hd
    intro exs h
    rw [show ZeroMQRouter.removeBindingsFold exs ((e0, b0) :: rest) q =
        ZeroMQRouter.removeBindingsFold
          (match alistFind? exs e0 with
           | some trie => alistSet exs e0 (trie.remove_topic_tree b0 q)
           | none => exs) rest q from rfl]
    cases hfe : alistFind? exs e0 with
    | none => exact ih _ h
    | some trie0 => exact ih _ (alistKeys_set_nodup _ _ _ h)

theorem fold_clears {q : String} :
    ∀ (bs : List (String × String)) (exs : List (String × TopicTrie)),
      (∀ exName trie, alistFind? exs exName = some trie → NodeWF trie.root) →
      (∀ exName trie, alistFind? exs exName = some trie →
        ∀ path, q ∈ patternsAt trie.root path →
          ∃ b, (exName, b) ∈ bs ∧ splitDot b = path) →
      ∀ exName trie, alistFind? (ZeroMQRouter.removeBindingsFold exs bs q) exName = some trie →
        ∀ path, q ∉ patternsAt trie.root path := by
  intro bs
  induction bs with
  | nil =>
    intro exs hwf hcov exName trie hf path hp
    obtain ⟨b, hb, _⟩ := hcov exName trie hf path hp
    simp at hb
  | cons hd rest ih =>
    obtain ⟨e0, b0⟩ := hd
    intro exs hwf hcov exName trie hf path hp
    rw [show ZeroMQRouter.removeBindingsFold exs ((e0, b0) :: rest) q =
        ZeroMQRouter.removeBindingsFold
          (match alistFind? exs e0 with
           | some trie => alistSet exs e0 (trie.remove_topic_tree b0 q)
           | none => exs) rest q from rfl] at hf
    cases hfe : alistFind? exs e0 with
    | none =>
      rw [hfe] at hf
      refine ih exs hwf ?_ exName trie hf path hp
      intro en t hft p hpt
      obtain ⟨b, hb, hsplit⟩ := hcov en t hft p hpt
      rcases List.mem_cons.mp hb with h1 | h1
      · obtain ⟨rfl, rfl⟩ := Prod.mk.injEq .. ▸ And.intro (congrArg Prod.fst h1) (congrArg Prod.snd h1)
        rw [hft] at hfe
        exact absurd hfe (by simp)
      · exact ⟨b, h1, hsplit⟩
    | some trie0 =>
      rw [hfe] at hf
      refine ih _ ?_ ?_ exName trie hf path hp
      · intro en t hft
        by_cases hen : en = e0
        · subst hen
          rw [alistFind_set_self] at hft
          obtain rfl : t = trie0.remove_topic_tree b0 q := (Option.some_injective _ hft).symm
          exact NodeWF.remove_at _ _ (hwf en trie0 hfe)
        · rw [alistFind_set_ne _ _ _ _ hen] at hft
          exact hwf en t hft
      · intro en t hft p hpt
        by_cases hen : en = e0
        · subst hen
          rw [alistFind_set_self] at hft
          obtain rfl : t = trie0.remove_topic_tree b0 q := (Option.some_injective _ hft).symm
          have hold : q ∈ patternsAt trie0.root p := mem_patternsAt_remove_at _ _ _ hpt
          obtain ⟨b, hb, hsplit⟩ := hcov en trie0 hfe p hold
          rcases List.mem_cons.mp hb with h1 | h1
          · have hb0 : b = b0 := congrArg Prod.snd h1
            subst hb0
            rw [← hsplit] at hpt
            exact absurd hpt
              (not_mem_patternsAt_remove_at_self _ _ (hwf en trie0 hfe))
          · exact ⟨b, h1, hsplit⟩
        · rw [alistFind_set_ne _ _ _ _ hen] at hft
          obtain ⟨b, hb, hsplit⟩ := hcov en t hft p hpt
          rcases List.mem_cons.mp hb with h1 | h1
          · exact absurd (congrArg Prod.fst h1) hen
          · exact ⟨b, h1, hsplit⟩

theorem routeLoop_state {m : QItem} :
    ∀ (qs : List String) (s : RouterState),
      ((ZeroMQRouter.routeLoop m qs s).2).exchanges = s.exchanges ∧
      ((ZeroMQRouter.routeLoop m qs s).2).bindings_by_queue = s.bindings_by_queue ∧
      ∀ q, (alistFind? s.queues q).isSome →
        (alistFind? ((ZeroMQRouter.routeLoop m qs s).2).queues q).isSome := by
  intro qs
  induction qs with
  | nil =>
    intro s
    exact ⟨rfl, rfl, fun q hq => hq⟩
  | cons q0 rest ih =>
    intro s
    cases hf : alistFind? s.queues q0 with
    | none =>
      have hstep : ZeroMQRouter.routeLoop m (q0 :: rest) s =
          (.error (.assertionFailed q0), s) := by
        simp [ZeroMQRouter.routeLoop, hf]
      rw [hstep]
      exact ⟨rfl, rfl, fun q hq => hq⟩
    | some buf =>
      have hstep : ZeroMQRouter.routeLoop m (q0 :: rest) s =
          ZeroMQRouter.routeLoop m rest
            { s with queues := alistSet s.queues q0 (buf ++ [m]) } := by
        simp [ZeroMQRouter.routeLoop, hf]
      rw [hstep]
      obtain ⟨h1, h2, h3⟩ := ih { s with queues := alistSet s.queues q0 (buf ++ [m]) }
      exact ⟨h1, h2, fun q hq => h3 q (alistFind_set_isSome _ _ _ _ hq)⟩

theorem declare_queue_state {q : Option String} {gen : Nat → String} {fuel : Nat}
    {s : RouterState} {name : String} {s1 : RouterState}
    (h : ZeroMQRouter.declare_queue q gen fuel s = some (name, s1)) :
    s1.exchanges = s.exchanges ∧ s1.bindings_by_queue = s.bindings_by_queue ∧
    ∀ qq, (alistFind? s.queues qq).isSome → (alistFind? s1.queues qq).isSome := by
  unfold ZeroMQRouter.declare_queue at h
  cases hm : (match q with
    | none => ZeroMQRouter.mint_queue_name gen s.queues fuel 0
    | some qn => if qn = "" then ZeroMQRouter.mint_queue_name gen s.queues fuel 0
                 else some qn) with
  | none =>
    rw [hm] at h
    exact absurd h (by simp)
  | some qn =>
    rw [hm] at h
    simp only [Option.some.injEq, Prod.mk.injEq] at h
    obtain ⟨-, h2⟩ := h
    by_cases hq : (alistFind? s.queues qn).isSome
    · rw [if_pos hq] at h2
      rw [← h2]
      exact ⟨rfl, rfl, fun qq hqq => hqq⟩
    · rw [if_neg hq] at h2
      rw [← h2]
      exact ⟨rfl, rfl, fun qq hqq => alistFind_set_isSome _ _ _ _ hqq⟩

theorem inv_declare_exchange {s : RouterState} (h : Inv s) (n : String) (a : ExchangeAttrs) :
    Inv (ZeroMQRouter.declare_exchange n a s).2 := by
  show Inv (if (alistFind? s.exchanges n).isSome then s
    else { s with exchanges := alistSet s.exchanges n TopicTrie.empty })
  by_cases hf : (alistFind? s.exchanges n).isSome
  · rw [if_pos hf]
    exact h
  · rw [if_neg hf]
    refine ⟨alistKeys_set_nodup _ _ _ h.exKN, ?_, ?_, ?_⟩
    · intro en t hft
      by_cases hen : en = n
      · subst hen
        rw [alistFind_set_self] at hft
        obtain rfl : t = TopicTrie.empty := (Option.some_injective _ hft).symm
        exact nodeWF_empty none
      · exact h.wf en t (by rwa [alistFind_set_ne _ _ _ _ hen] at hft)
    · intro en t hft q path hp
      by_cases hen : en = n
      · subst hen
        rw [alistFind_set_self] at hft
        obtain rfl : t = TopicTrie.empty := (Option.some_injective _ hft).symm
        rw [show TopicTrie.empty.root = Node.mk none [] [] from rfl,
          patternsAt_empty_node] at hp
        exact absurd hp (List.not_mem_nil q)
      · exact h.cover en t (by rwa [alistFind_set_ne _ _ _ _ hen] at hft) q path hp
    · intro en t hft q path hp
      by_cases hen : en = n
      · subst hen
        rw [alistFind_set_self] at hft
        obtain rfl : t = TopicTrie.empty := (Option.some_injective _ hft).symm
        rw [show TopicTrie.empty.root = Node.mk none [] [] from rfl,
          patternsAt_empty_node] at hp
        exact absurd hp (List.not_mem_nil q)
      · exact h.pat_q en t (by rwa [alistFind_set_ne _ _ _ _ hen] at hft) q path hp

theorem inv_delete_exchange {s : RouterState} (h : Inv s) (n : String) :
    Inv (ZeroMQRouter.delete_exchange n s) := by
  unfold ZeroMQRouter.delete_exchange
  by_cases hf : (alistFind? s.exchanges n).isSome
  · rw [if_pos hf]
    have hfind : ∀ en t,
        alistFind? (alistErase s.exchanges n) en = some t →
        alistFind? s.exchanges en = some t := by
      intro en t hft
      by_cases hen : en = n
      · subst hen
        rw [alistFind_erase_self_of_nodup _ _ h.exKN] at hft
        exact absurd hft (by simp)
      · rwa [alistFind_erase_ne _ _ _ hen] at hft
    refine ⟨alistKeys_erase_nodup _ _ h.exKN, ?_, ?_, ?_⟩
    · intro en t hft
      exact h.wf en t (hfind en t hft)
    · intro en t hft q path hp
      exact h.cover en t (hfind en t hft) q path hp
    · intro en t hft q path hp
      exact h.pat_q en t (hfind en t hft) q path hp
  · rw [if_neg hf]
    exact h

theorem inv_declare_queue {s : RouterState} (h : Inv s) (q : Option String) :
    Inv (applyOp s (.declare_q q)) := by
  simp only [applyOp]
  cases hd : ZeroMQRouter.declare_queue q defaultGen 1000 s with
  | none => exact h
  | some pr =>
    obtain ⟨name, s1⟩ := pr
    obtain ⟨h1, h2, h3⟩ := declare_queue_state hd
    exact Inv.mono h h1 h2 h3

theorem inv_ack {s : RouterState} (h : Inv s) (t : String) :
    Inv (ZeroMQRouter.ack t s).2 := by
  unfold ZeroMQRouter.ack
  by_cases hf : (alistFind? s.unacked t).isSome
  · rw [if_pos hf]
    exact Inv.mono h rfl rfl (fun q hq => hq)
  · rw [if_neg hf]
    exact h

theorem inv_reject {s : RouterState} (h : Inv s) (t : String) (rq : Bool) :
    Inv (ZeroMQRouter.reject t rq s).2 := by
  have hmono : ∀ s1 : RouterState, s1.exchanges = s.exchanges →
      s1.bindings_by_queue = s.bindings_by_queue → s1.queues = s.queues → Inv s1 :=
    fun s1 h1 h2 h3 => Inv.mono h h1 h2 (fun q0 hq0 => by rwa [h3])
  cases hf : alistFind? s.unacked t with
  | none => refine hmono _ ?_ ?_ ?_ <;> simp [ZeroMQRouter.reject, hf]
  | some e =>
    obtain ⟨c, qn, m⟩ := e
    by_cases hrq : rq
    · cases hq : alistFind? s.queues qn with
      | none => refine hmono _ ?_ ?_ ?_ <;> simp [ZeroMQRouter.reject, hf, hrq, hq]
      | some buf => refine hmono _ ?_ ?_ ?_ <;> simp [ZeroMQRouter.reject, hf, hrq, hq]
    · refine hmono _ ?_ ?_ ?_ <;> simp [ZeroMQRouter.reject, hf, hrq]

theorem inv_start_consume {s : RouterState} (h : Inv s) (q : String) (na ex : Bool) :
    Inv (ZeroMQRouter.start_consume q na ex s).2 := by
  have hmono : ∀ s1 : RouterState, s1.exchanges = s.exchanges →
      s1.bindings_by_queue = s.bindings_by_queue → s1.queues = s.queues → Inv s1 :=
    fun s1 h1 h2 h3 => Inv.mono h h1 h2 (fun q0 hq0 => by rwa [h3])
  by_cases hf : (alistFind? s.queues q).isSome
  · cases hp : s.ctag_pool.get_id with
    | mk n pool =>
      by_cases hc : (alistFind? s.consumers_by_ctag (ZeroMQRouter.generate_ctag n)).isSome
      · refine hmono _ ?_ ?_ ?_ <;> simp [ZeroMQRouter.start_consume, hf, hp, hc]
      · refine hmono _ ?_ ?_ ?_ <;> simp [ZeroMQRouter.start_consume, hf, hp, hc]
  · refine hmono _ ?_ ?_ ?_ <;> simp [ZeroMQRouter.start_consume, hf]

theorem inv_run_consumer_step {s : RouterState} (h : Inv s) (c qn : String) (cnt : Nat) :
    Inv ((ZeroMQRouter.run_consumer_step c qn cnt s).stateD s) := by
  unfold ZeroMQRouter.run_consumer_step
  cases hf : alistFind? s.queues qn with
  | none => exact h
  | some buf =>
    cases buf with
    | nil => exact h
    | cons item rest =>
      cases item with
      | consumerClosed =>
        exact Inv.mono h rfl rfl (fun q0 hq0 => alistFind_set_isSome _ _ _ _ hq0)
      | msg e r b p =>
        exact Inv.mono h rfl rfl (fun q0 hq0 => alistFind_set_isSome _ _ _ _ hq0)

theorem inv_route {s : RouterState} (h : Inv s) (e r b : String)
    (p : List (String × String)) : Inv (ZeroMQRouter.route e r b p s).2 := by
  unfold ZeroMQRouter.route
  cases hf : alistFind? s.exchanges e with
  | none => exact h
  | some trie =>
    obtain ⟨h1, h2, h3⟩ := routeLoop_state (m := .msg e r b p)
      (trie.get_all_matches r) s
    exact Inv.mono h h1 h2 h3

theorem inv_run_gl_msgs_step {s : RouterState} (h : Inv s) (e r b : String)
    (p : List (String × String)) : Inv (ZeroMQRouter.run_gl_msgs_step e r b p s) := by
  unfold ZeroMQRouter.run_gl_msgs_step
  have hr := inv_route h e r b p
  cases hres : ZeroMQRouter.route e r b p s with
  | mk res s1 =>
    rw [hres] at hr
    cases res with
    | ok u => exact hr
    | error err => exact Inv.mono hr rfl rfl (fun q0 hq0 => hq0)

theorem inv_bind {s : RouterState} (h : Inv s) (e q b : String) :
    Inv (ZeroMQRouter.bind e q b s).2 := by
  cases hfe : alistFind? s.exchanges e with
  | none =>
    have hid : (ZeroMQRouter.bind e q b s).2 = s := by simp [ZeroMQRouter.bind, hfe]
    rw [hid]
    exact h
  | some trie =>
    by_cases hq : (alistFind? s.queues q).isSome
    · have hstate : (ZeroMQRouter.bind e q b s).2 =
          { s with
            exchanges := alistSet s.exchanges e (trie.add_topic_tree b q),
            bindings_by_queue := alistSet s.bindings_by_queue q
              ((alistFind? s.bindings_by_queue q).getD [] ++ [(e, b)]) } := by
        simp [ZeroMQRouter.bind, hfe, hq]
      rw [hstate]
      have hnewbs : ∀ q0, (alistFind? (alistSet s.bindings_by_queue q
          ((alistFind? s.bindings_by_queue q).getD [] ++ [(e, b)])) q0).getD [] =
          if q0 = q then (alistFind? s.bindings_by_queue q).getD [] ++ [(e, b)]
          else (alistFind? s.bindings_by_queue q0).getD [] := by
        intro q0
        by_cases hq0 : q0 = q
        · subst hq0
          rw [alistFind_set_self, if_pos rfl]
          rfl
        · rw [alistFind_set_ne _ _ _ _ hq0, if_neg hq0]
      refine ⟨alistKeys_set_nodup _ _ _ h.exKN, ?_, ?_, ?_⟩
      · intro en t hft
        by_cases hen : en = e
        · subst hen
          rw [alistFind_set_self] at hft
          obtain rfl : t = trie.add_topic_tree b q := (Option.some_injective _ hft).symm
          exact NodeWF.add_at _ _ (h.wf en trie hfe)
        · exact h.wf en t (by rwa [alistFind_set_ne _ _ _ _ hen] at hft)
      · intro en t hft q0 path hp
        rw [hnewbs q0]
        by_cases hen : en = e
        · subst hen
          rw [alistFind_set_self] at hft
          obtain rfl : t = trie.add_topic_tree b q := (Option.some_injective _ hft).symm
          rcases mem_patternsAt_add_at (splitDot b) trie.root path hp with hold | hnew
          · obtain ⟨b', hb', hsplit⟩ := h.cover en trie hfe q0 path hold
            by_cases hq0 : q0 = q
            · rw [if_pos hq0]
              exact ⟨b', List.mem_append_left _ (hq0 ▸ hb'), hsplit⟩
            · rw [if_neg hq0]
              exact ⟨b', hb', hsplit⟩
          · obtain ⟨rfl, rfl⟩ := hnew
            rw [if_pos rfl]
            exact ⟨b, List.mem_append_right _ (List.mem_singleton.mpr rfl), rfl⟩
        · rw [alistFind_set_ne _ _ _ _ hen] at hft
          obtain ⟨b', hb', hsplit⟩ := h.cover en t hft q0 path hp
          by_cases hq0 : q0 = q
          · rw [if_pos hq0]
            exact ⟨b', List.mem_append_left _ (hq0 ▸ hb'), hsplit⟩
          · rw [if_neg hq0]
            exact ⟨b', hb', hsplit⟩
      · intro en t hft q0 path hp
        by_cases hen : en = e
        · subst hen
          rw [alistFind_set_self] at hft
          obtain rfl : t = trie.add_topic_tree b q := (Option.some_injective _ hft).symm
          rcases mem_patternsAt_add_at (splitDot b) trie.root path hp with hold | hnew
          · exact h.pat_q en trie hfe q0 path hold
          · exact hnew.1 ▸ hq
        · rw [alistFind_set_ne _ _ _ _ hen] at hft
          exact h.pat_q en t hft q0 path hp
    · have hid : (ZeroMQRouter.bind e q b s).2 = s := by simp [ZeroMQRouter.bind, hfe, hq]
      rw [hid]
      exact h

theorem inv_unbind {s : RouterState} (h : Inv s) (e q b : String) :
    Inv (ZeroMQRouter.unbind e q b s).2 := by
  cases hfe : alistFind? s.exchanges e with
  | none =>
    have hid : (ZeroMQRouter.unbind e q b s).2 = s := by simp [ZeroMQRouter.unbind, hfe]
    rw [hid]
    exact h
  | some trie =>
    by_cases hq : (alistFind? s.queues q).isSome
    · have hstate : (ZeroMQRouter.unbind e q b s).2 =
          { s with
            exchanges := alistSet s.exchanges e (trie.remove_topic_tree b q),
            bindings_by_queue := alistSet s.bindings_by_queue q
              (ZeroMQRouter.removeFirstBinding
                ((alistFind? s.bindings_by_queue q).getD []) e b) } := by
        simp [ZeroMQRouter.unbind, hfe, hq]
      rw [hstate]
      have hnewbs : ∀ q0, (alistFind? (alistSet s.bindings_by_queue q
          (ZeroMQRouter.removeFirstBinding
            ((alistFind? s.bindings_by_queue q).getD []) e b)) q0).getD [] =
          if q0 = q then ZeroMQRouter.removeFirstBinding
            ((alistFind? s.bindings_by_queue q).getD []) e b
          else (alistFind? s.bindings_by_queue q0).getD [] := by
        intro q0
        by_cases hq0 : q0 = q
        · subst hq0
          rw [alistFind_set_self, if_pos rfl]
          rfl
        · rw [alistFind_set_ne _ _ _ _ hq0, if_neg hq0]
      refine ⟨alistKeys_set_nodup _ _ _ h.exKN, ?_, ?_, ?_⟩
      · intro en t hft
        by_cases hen : en = e
        · subst hen
          rw [alistFind_set_self] at hft
          obtain rfl : t = trie.remove_topic_tree b q := (Option.some_injective _ hft).symm
          exact NodeWF.remove_at _ _ (h.wf en trie hfe)
        · exact h.wf en t (by rwa [alistFind_set_ne _ _ _ _ hen] at hft)
      · intro en t hft q0 path hp
        rw [hnewbs q0]
        by_cases hen : en = e
        · subst hen
          rw [alistFind_set_self] at hft
          obtain rfl : t = trie.remove_topic_tree b q := (Option.some_injective _ hft).symm
          have hold : q0 ∈ patternsAt trie.root path :=
            mem_patternsAt_remove_at (splitDot b) trie.root path hp
          obtain ⟨b', hb', hsplit⟩ := h.cover en trie hfe q0 path hold
          by_cases hq0 : q0 = q
          · subst hq0
            rw [if_pos rfl]
            by_cases hbb : b' = b
            · subst hbb
              rw [← hsplit] at hp
              exact absurd hp
                (not_mem_patternsAt_remove_at_self (splitDot b') trie.root
                  (h.wf en trie hfe))
            · refine ⟨b', mem_removeFirstBinding hb' ?_, hsplit⟩
              intro hcon
              exact hbb (congrArg Prod.snd hcon)
          · rw [if_neg hq0]
            exact ⟨b', hb', hsplit⟩
        · rw [alistFind_set_ne _ _ _ _ hen] at hft
          obtain ⟨b', hb', hsplit⟩ := h.cover en t hft q0 path hp
          by_cases hq0 : q0 = q
          · subst hq0
            rw [if_pos rfl]
            refine ⟨b', mem_removeFirstBinding hb' ?_, hsplit⟩
            intro hcon
            exact hen (congrArg Prod.fst hcon)
          · rw [if_neg hq0]
            exact ⟨b', hb', hsplit⟩
      · intro en t hft q0 path hp
        by_cases hen : en = e
        · subst hen
          rw [alistFind_set_self] at hft
          obtain rfl : t = trie.remove_topic_tree b q := (Option.some_injective _ hft).symm
          exact h.pat_q en trie hfe q0 path
            (mem_patternsAt_remove_at (splitDot b) trie.root path hp)
        · rw [alistFind_set_ne _ _ _ _ hen] at hft
          exact h.pat_q en t hft q0 path hp
    · have hid : (ZeroMQRouter.unbind e q b s).2 = s := by
        simp [ZeroMQRouter.unbind, hfe, hq]
      rw [hid]
      exact h

theorem inv_delete_queue {s : RouterState} (h : Inv s) (Q : String) :
    Inv (ZeroMQRouter.delete_queue Q s) := by
  by_cases hq : (alistFind? s.queues Q).isSome
  · have hstate : ZeroMQRouter.delete_queue Q s =
        { s with
          queues := alistErase s.queues Q,
          bindings_by_queue := alistSet s.bindings_by_queue Q
            ((alistFind? s.bindings_by_queue Q).getD []),
          exchanges := ZeroMQRouter.removeBindingsFold s.exchanges
            ((alistFind? s.bindings_by_queue Q).getD []) Q } := by
      simp [ZeroMQRouter.delete_queue, hq]
    rw [hstate]
    have hclear := fold_clears ((alistFind? s.bindings_by_queue Q).getD []) s.exchanges
      h.wf (fun en t hft path hp => h.cover en t hft Q path hp)
    refine ⟨fold_keys_nodup _ _ h.exKN, ?_, ?_, ?_⟩
    · intro en t hft
      obtain ⟨t0, hf0, hmono0, hwf0⟩ := fold_find _ s.exchanges en t hft
      exact hwf0 (h.wf en t0 hf0)
    · intro en t hft q0 path hp
      obtain ⟨t0, hf0, hmono0, hwf0⟩ := fold_find _ s.exchanges en t hft
      have hold : q0 ∈ patternsAt t0.root path := hmono0 path q0 hp
      obtain ⟨b', hb', hsplit⟩ := h.cover en t0 hf0 q0 path hold
      have hq0 : q0 ≠ Q := by
        intro hcon
        subst hcon
        exact hclear en t hft path hp
      rw [alistFind_set_ne _ _ _ _ hq0]
      exact ⟨b', hb', hsplit⟩
    · intro en t hft q0 path hp
      obtain ⟨t0, hf0, hmono0, hwf0⟩ := fold_find _ s.exchanges en t hft
      have hold : q0 ∈ patternsAt t0.root path := hmono0 path q0 hp
      have hq0 : q0 ≠ Q := by
        intro hcon
        subst hcon
        exact hclear en t hft path hp
      have hsome := h.pat_q en t0 hf0 q0 path hold
      rwa [alistFind_erase_ne _ _ _ hq0]
  · have hid : ZeroMQRouter.delete_queue Q s = s := by
      simp [ZeroMQRouter.delete_queue, hq]
    rw [hid]
    exact h

theorem inv_applyOp {s : RouterState} (h : Inv s) (op : Op) : Inv (applyOp s op) := by
  cases op with
  | declare_ex n a => exact inv_declare_exchange h n a
  | delete_ex n => exact inv_delete_exchange h n
  | declare_q q => exact inv_declare_queue h q
  | delete_q n => exact inv_delete_queue h n
  | bind_op e q b => exact inv_bind h e q b
  | unbind_op e q b => exact inv_unbind h e q b
  | publish_op e r b p => exact inv_run_gl_msgs_step h e r b p
  | consume_op q na ex => exact inv_start_consume h q na ex
  | deliver_op c q n => exact inv_run_consumer_step h c q n
  | ack_op t => exact inv_ack h t
  | reject_op t rq => exact inv_reject h t rq

theorem inv_applyOps (ops : List Op) : Inv (applyOps ops) := by
  have hgen : ∀ (l : List Op) (s : RouterState), Inv s → Inv (l.foldl applyOp s) := by
    intro l
    induction l with
    | nil => intro s hs; exact hs
    | cons op rest ih => intro s hs; exact ih _ (inv_applyOp hs op)
  exact hgen ops initRouter inv_initRouter

theorem delete_queue_no_match {s : RouterState} (h : Inv s) (Q : String) :
    ∀ exName trie,
      alistFind? (ZeroMQRouter.delete_queue Q s).exchanges exName = some trie →
      ∀ key, Q ∉ trie.get_all_matches key := by
  intro exName trie hft key hmem
  simp only [TopicTrie.get_all_matches, List.mem_dedup] at hmem
  obtain ⟨path, hp⟩ := mem_matches_exists_path (splitDot key).length trie.root
    (splitDot key) (Nat.le_refl _) hmem
  by_cases hq : (alistFind? s.queues Q).isSome
  · have hex : (ZeroMQRouter.delete_queue Q s).exchanges =
        ZeroMQRouter.removeBindingsFold s.exchanges
          ((alistFind? s.bindings_by_queue Q).getD []) Q := by
      simp [ZeroMQRouter.delete_queue, hq]
    rw [hex] at hft
    exact fold_clears _ s.exchanges h.wf
      (fun en t hft2 path2 hp2 => h.cover en t hft2 Q path2 hp2) exName trie hft path hp
  · have hid : ZeroMQRouter.delete_queue Q s = s := by
      simp [ZeroMQRouter.delete_queue, hq]
    rw [hid] at hft
    exact absurd (h.pat_q exName trie hft Q path hp) (by simpa using hq)

/-! ## Claim theorems -/

/-- C1: With the single binding `#.c` ↦ `P`, the claim states the match set
contains `P` exactly for the routing keys `c`, `a.c`, `a.b.c` and not for
`c.a`.  On the code, a `#` child is only ever entered after the current
token has been consumed (`get_all_matches` descends into `children['#']`
with `rem_tokens[i:]`), so a leading `#` never matches zero tokens: the
routing key `c` does **not** match, contradicting the claim (and the code's
own comment that "`#` means any number of tokens" as well as the RabbitMQ
semantics the class cites).  The other three keys behave as claimed. -/
theorem hash_c_binding_matches :
    "P" ∈ (TopicTrie.empty.add_topic_tree "#.c" "P").get_all_matches "a.c" ∧
    "P" ∈ (TopicTrie.empty.add_topic_tree "#.c" "P").get_all_matches "a.b.c" ∧
    "P" ∉ (TopicTrie.empty.add_topic_tree "#.c" "P").get_all_matches "c.a" ∧
    "P" ∉ (TopicTrie.empty.add_topic_tree "#.c" "P").get_all_matches "c" := by
  refine ⟨?_, ?_, ?_, ?_⟩ <;>
    simp [TopicTrie.empty, TopicTrie.add_topic_tree, TopicTrie.get_all_matches,
      Node.get_all_matches, Node.add_at, splitDot, splitAux, lookupChild, setChild,
      Node.patterns, Node.children, List.range_succ]

/-- C2: With the single binding `a.#` ↦ `P`, the claim states the match set
contains `P` exactly for `a`, `a.b`, `a.b.c.d.e` and not for `b.a`, a
trailing `#` matching "any suffix including the empty suffix".  On the
code, the `#` child's own patterns are only collected while at least one
token remains (`get_all_matches` returns the terminal node's patterns as
soon as the token list is empty, without looking at a `#` child), so the
routing key `a` does **not** match `a.#`: the empty suffix is not matched,
contradicting the claim.  The other three keys behave as claimed. -/
theorem a_hash_binding_matches :
    "P" ∈ (TopicTrie.empty.add_topic_tree "a.#" "P").get_all_matches "a.b" ∧
    "P" ∈ (TopicTrie.empty.add_topic_tree "a.#" "P").get_all_matches "a.b.c.d.e" ∧
    "P" ∉ (TopicTrie.empty.add_topic_tree "a.#" "P").get_all_matches "b.a" ∧
    "P" ∉ (TopicTrie.empty.add_topic_tree "a.#" "P").get_all_matches "a" := by
  refine ⟨?_, ?_, ?_, ?_⟩ <;>
    simp [TopicTrie.empty, TopicTrie.add_topic_tree, TopicTrie.get_all_matches,
      Node.get_all_matches, Node.add_at, splitDot, splitAux, lookupChild, setChild,
      Node.patterns, Node.children, List.range_succ]

/-- C4: the claim states `reject(t, requeue=True)` removes `t` from the
unacked table and appends the original message at the tail of its queue.
On the code the removal happens, but the enqueue `self._queues[queue].append(m)`
raises `AttributeError` (`gevent.queue.Queue` has `put`/`get` but no
`append`), so with an unacked delivery on queue `q1` the rejected message is
dropped: the resulting state has the entry removed, an error raised and the
queue buffer still empty. -/
theorem reject_requeue_attribute_error :
    ZeroMQRouter.reject "zctag-0-0" true
      { initRouter with
        queues := [("q1", [])],
        unacked := [("zctag-0-0", ("zctag-0", "q1", QItem.msg "ex1" "a.b" "hello" []))] } =
      (.error (.attributeMissing "Queue.append"),
       { initRouter with queues := [("q1", [])], unacked := [] }) := by
  rfl

/-- C9: for a delivery tag present in the unacked table (a Python dict, so
its keys are unique), `ack` succeeds and removes the tag, and an immediate
second `ack` fails with the unknown-entity assert, leaving the table
unchanged. -/
theorem ack_removes_then_unknown (s : RouterState) (t : String)
    (entry : String × String × QItem)
    (hnd : (alistKeys s.unacked).Nodup)
    (h : alistFind? s.unacked t = some entry) :
    (ZeroMQRouter.ack t s).1 = .ok () ∧
    alistFind? ((ZeroMQRouter.ack t s).2).unacked t = none ∧
    ZeroMQRouter.ack t (ZeroMQRouter.ack t s).2 =
      (.error (.unknownEntity t), (ZeroMQRouter.ack t s).2) := by
  have h1 : (alistFind? s.unacked t).isSome := by simp [h]
  have e1 : ZeroMQRouter.ack t s =
      (.ok (), { s with unacked := alistErase s.unacked t }) := by
    simp [ZeroMQRouter.ack, h1]
  have h2 : alistFind? (alistErase s.unacked t) t = none :=
    alistFind_erase_self_of_nodup _ _ hnd
  refine ⟨by rw [e1], by rw [e1]; exact h2, ?_⟩
  rw [e1]
  simp [ZeroMQRouter.ack, h2]

/-- Witness for C9 at a concrete one-entry unacked table. -/
theorem ack_removes_then_unknown_w :
    (ZeroMQRouter.ack "zctag-0-0"
      { initRouter with
        unacked := [("zctag-0-0", ("zctag-0", "q1", QItem.msg "ex1" "a.b" "hello" []))] }).1 =
      .ok () ∧
    alistFind? ((ZeroMQRouter.ack "zctag-0-0"
      { initRouter with
        unacked := [("zctag-0-0", ("zctag-0", "q1", QItem.msg "ex1" "a.b" "hello" []))] }).2).unacked
      "zctag-0-0" = none ∧
    ZeroMQRouter.ack "zctag-0-0"
      (ZeroMQRouter.ack "zctag-0-0"
        { initRouter with
          unacked := [("zctag-0-0", ("zctag-0", "q1", QItem.msg "ex1" "a.b" "hello" []))] }).2 =
      (.error (.unknownEntity "zctag-0-0"),
       (ZeroMQRouter.ack "zctag-0-0"
        { initRouter with
          unacked := [("zctag-0-0", ("zctag-0", "q1", QItem.msg "ex1" "a.b" "hello" []))] }).2) :=
  ack_removes_then_unknown _ "zctag-0-0" ("zctag-0", "q1", QItem.msg "ex1" "a.b" "hello" [])
    (by simp [alistKeys, initRouter]) (by rfl)

/-- C10: deleting an exchange or a queue whose name is not in the broker's
tables is a silent no-op: both operations are guarded by a membership test,
have no raising code path, and return the state entirely unchanged
(exchanges, queues, bindings, consumers and unacked table included). -/
theorem delete_missing_silent (s : RouterState) (en qn : String)
    (hex : alistFind? s.exchanges en = none)
    (hq : alistFind? s.queues qn = none) :
    ZeroMQRouter.delete_exchange en s = s ∧ ZeroMQRouter.delete_queue qn s = s := by
  constructor
  · simp [ZeroMQRouter.delete_exchange, hex]
  · simp [ZeroMQRouter.delete_queue, hq]

/-- Witness for C10 on a router holding unrelated state. -/
theorem delete_missing_silent_w :
    ZeroMQRouter.delete_exchange "exX"
      { initRouter with queues := [("q1", [])] } =
      { initRouter with queues := [("q1", [])] } ∧
    ZeroMQRouter.delete_queue "qX"
      { initRouter with queues := [("q1", [])] } =
      { initRouter with queues := [("q1", [])] } :=
  delete_missing_silent { initRouter with queues := [("q1", [])] } "exX" "qX"
    (by rfl) (by rfl)

theorem alistFind_isSome_of_mem {α : Type} (l : List (String × α)) (k : String)
    (h : k ∈ alistKeys l) : (alistFind? l k).isSome := by
  induction l with
  | nil => simp [alistKeys] at h
  | cons hd tl ih =>
    obtain ⟨k0, v0⟩ := hd
    by_cases h0 : k0 = k
    · simp [alistFind?, h0]
    · rw [show alistKeys ((k0, v0) :: tl) = k0 :: alistKeys tl from rfl] at h
      rcases List.mem_cons.mp h with h1 | h1
      · exact absurd h1.symm h0
      · simpa [alistFind?, h0] using ih h1

theorem routeLoop_errors {m : QItem} :
    ∀ (qs : List String) (s : RouterState),
      ((ZeroMQRouter.routeLoop m qs s).2).errors = s.errors := by
  intro qs
  induction qs with
  | nil => intro s; rfl
  | cons q0 rest ih =>
    intro s
    cases hf : alistFind? s.queues q0 with
    | none =>
      have hstep : ZeroMQRouter.routeLoop m (q0 :: rest) s =
          (.error (.assertionFailed q0), s) := by
        simp [ZeroMQRouter.routeLoop, hf]
      rw [hstep]
    | some buf =>
      have hstep : ZeroMQRouter.routeLoop m (q0 :: rest) s =
          ZeroMQRouter.routeLoop m rest
            { s with queues := alistSet s.queues q0 (buf ++ [m]) } := by
        simp [ZeroMQRouter.routeLoop, hf]
      rw [hstep]
      exact ih { s with queues := alistSet s.queues q0 (buf ++ [m]) }

theorem routeLoop_ok {m : QItem} :
    ∀ (qs : List String) (s : RouterState), qs.Nodup →
      (∀ q ∈ qs, (alistFind? s.queues q).isSome) →
      (ZeroMQRouter.routeLoop m qs s).1 = .ok () ∧
      ∀ q, alistFind? ((ZeroMQRouter.routeLoop m qs s).2).queues q =
        if q ∈ qs then (alistFind? s.queues q).map (fun buf => buf ++ [m])
        else alistFind? s.queues q := by
  intro qs
  induction qs with
  | nil =>
    intro s _ _
    exact ⟨rfl, fun q => by simp [ZeroMQRouter.routeLoop]⟩
  | cons q0 rest ih =>
    intro s hnd hall
    obtain ⟨hq0, hrest⟩ := List.nodup_cons.mp hnd
    have h0 : (alistFind? s.queues q0).isSome := hall q0 (List.mem_cons_self _ _)
    obtain ⟨buf, hbuf⟩ := Option.isSome_iff_exists.mp h0
    have hstep : ZeroMQRouter.routeLoop m (q0 :: rest) s =
        ZeroMQRouter.routeLoop m rest
          { s with queues := alistSet s.queues q0 (buf ++ [m]) } := by
      simp [ZeroMQRouter.routeLoop, hbuf]
    rw [hstep]
    have hall1 : ∀ q ∈ rest,
        (alistFind? (alistSet s.queues q0 (buf ++ [m])) q).isSome := by
      intro q hq
      exact alistFind_set_isSome _ _ _ _ (hall q (List.mem_cons_of_mem _ hq))
    obtain ⟨hok, hchar⟩ :=
      ih { s with queues := alistSet s.queues q0 (buf ++ [m]) } hrest hall1
    refine ⟨hok, ?_⟩
    intro q
    rw [hchar q]
    by_cases hqq : q = q0
    · subst hqq
      rw [if_neg hq0, if_pos (List.mem_cons_self _ _)]
      show alistFind? (alistSet s.queues q (buf ++ [m])) q = _
      rw [alistFind_set_self, hbuf]
      rfl
    · have hside : alistFind? (alistSet s.queues q0 (buf ++ [m])) q =
          alistFind? s.queues q := alistFind_set_ne _ _ _ _ hqq
      by_cases hqr : q ∈ rest
      · rw [if_pos hqr, if_pos (List.mem_cons_of_mem _ hqr), hside]
      · rw [if_neg hqr, if_neg (by simp [hqq, hqr]), hside]

theorem routeLoop_err {m : QItem} :
    ∀ (qs : List String) (s : RouterState) (q0 : String), q0 ∈ qs →
      alistFind? s.queues q0 = none →
      ∃ qf, (ZeroMQRouter.routeLoop m qs s).1 = .error (.assertionFailed qf) := by
  intro qs
  induction qs with
  | nil =>
    intro s q0 h _
    exact absurd h (List.not_mem_nil q0)
  | cons qh rest ih =>
    intro s q0 hmem hnone
    cases hf : alistFind? s.queues qh with
    | none =>
      refine ⟨qh, ?_⟩
      have hstep : ZeroMQRouter.routeLoop m (qh :: rest) s =
          (.error (.assertionFailed qh), s) := by
        simp [ZeroMQRouter.routeLoop, hf]
      rw [hstep]
    | some buf =>
      have hne : q0 ≠ qh := by
        intro hcon
        rw [hcon, hf] at hnone
        exact Option.noConfusion hnone
      have hmem1 : q0 ∈ rest := by
        rcases List.mem_cons.mp hmem with h1 | h1
        · exact absurd h1 hne
        · exact h1
      have hstep : ZeroMQRouter.routeLoop m (qh :: rest) s =
          ZeroMQRouter.routeLoop m rest
            { s with queues := alistSet s.queues qh (buf ++ [m]) } := by
        simp [ZeroMQRouter.routeLoop, hf]
      rw [hstep]
      refine ih _ q0 hmem1 ?_
      show alistFind? (alistSet s.queues qh (buf ++ [m])) q0 = none
      rw [alistFind_set_ne _ _ _ _ hne]
      exact hnone

/-- C3 amended: during routing, when every matched queue exists the message
is appended at the tail of each of their buffers and `_route` succeeds; but
a matched queue missing from the queue table is **not** skipped silently:
`_route` fails its `assert q in self._queues` (delivery to the queues the
set iteration had not reached yet does not happen), and the ingress loop
records the raised error in the broker's error list. -/
theorem route_missing_queue_asserts (s : RouterState) (e rkey body : String)
    (props : List (String × String)) (trie : TopicTrie)
    (hfe : alistFind? s.exchanges e = some trie) :
    ((∀ q ∈ trie.get_all_matches rkey, (alistFind? s.queues q).isSome) →
      (ZeroMQRouter.route e rkey body props s).1 = .ok () ∧
      ∀ q buf, q ∈ trie.get_all_matches rkey → alistFind? s.queues q = some buf →
        alistFind? ((ZeroMQRouter.route e rkey body props s).2).queues q =
          some (buf ++ [QItem.msg e rkey body props])) ∧
    (∀ q0, q0 ∈ trie.get_all_matches rkey → alistFind? s.queues q0 = none →
      (∃ qf, (ZeroMQRouter.route e rkey body props s).1 =
        .error (.assertionFailed qf)) ∧
      (ZeroMQRouter.run_gl_msgs_step e rkey body props s).errors.length =
        s.errors.length + 1) := by
  have hroute : ZeroMQRouter.route e rkey body props s =
      ZeroMQRouter.routeLoop (.msg e rkey body props) (trie.get_all_matches rkey) s := by
    simp [ZeroMQRouter.route, hfe]
  have hnd : (trie.get_all_matches rkey).Nodup := by
    simp only [TopicTrie.get_all_matches]
    exact List.nodup_dedup _
  constructor
  · intro hall
    obtain ⟨hok, hchar⟩ := routeLoop_ok (trie.get_all_matches rkey) s hnd hall
    rw [hroute]
    refine ⟨hok, ?_⟩
    intro q buf hq hbuf
    rw [hchar q, if_pos hq, hbuf]
    rfl
  · intro q0 hq0 hnone
    obtain ⟨qf, herr⟩ := routeLoop_err (trie.get_all_matches rkey) s q0 hq0 hnone
    rw [← hroute] at herr
    refine ⟨⟨qf, herr⟩, ?_⟩
    cases hres : ZeroMQRouter.route e rkey body props s with
    | mk res s1 =>
      have hres1 : res = .error (.assertionFailed qf) := by
        rw [hres] at herr
        exact herr
      subst hres1
      have hs1err : s1.errors = s.errors := by
        have := routeLoop_errors (m := .msg e rkey body props)
          (trie.get_all_matches rkey) s
        rw [← hroute, hres] at this
        exact this
      have hstep : ZeroMQRouter.run_gl_msgs_step e rkey body props s =
          { s1 with errors := s1.errors ++ [.assertionFailed qf] } := by
        simp [ZeroMQRouter.run_gl_msgs_step, hres]
      rw [hstep]
      simp [hs1err]

/-- Counterexample to C3 as stated: with exchange `ex1` whose trie maps the
binding `k` to queue `q1`, and no queue `q1` in the queue table, routing a
message is not silent — the assertion error is raised by `_route` and
recorded in the broker's error list by the ingress loop. -/
theorem route_missing_queue_not_silent :
    (ZeroMQRouter.run_gl_msgs_step "ex1" "k" "b" []
      { initRouter with
        exchanges := [("ex1", TopicTrie.empty.add_topic_tree "k" "q1")] }).errors =
      [.assertionFailed "q1"] := by
  simp [ZeroMQRouter.run_gl_msgs_step, ZeroMQRouter.route, ZeroMQRouter.routeLoop,
    initRouter, alistFind?, TopicTrie.empty, TopicTrie.add_topic_tree,
    TopicTrie.get_all_matches, Node.get_all_matches, Node.add_at, splitDot, splitAux,
    lookupChild, setChild, Node.patterns, Node.children]

/-- Witness for C3 amended: with the queue present, routing succeeds. -/
theorem route_missing_queue_asserts_w :
    (ZeroMQRouter.route "ex1" "k" "b" []
      { initRouter with
        exchanges := [("ex1", TopicTrie.empty.add_topic_tree "k" "q1")],
        queues := [("q1", [])] }).1 = .ok () :=
  ((route_missing_queue_asserts
      { initRouter with
        exchanges := [("ex1", TopicTrie.empty.add_topic_tree "k" "q1")],
        queues := [("q1", [])] }
      "ex1" "k" "b" [] (TopicTrie.empty.add_topic_tree "k" "q1") (by rfl)).1
    (by
      simp [TopicTrie.empty, TopicTrie.add_topic_tree, TopicTrie.get_all_matches,
        Node.get_all_matches, Node.add_at, splitDot, splitAux, lookupChild, setChild,
        Node.patterns, Node.children, alistFind?, initRouter])).1

/-- C7: after `delete_queue(Q)` on any state reachable by a sequence of
router operations, no surviving exchange's match set for any routing key
contains `Q`: every recorded binding of `Q` is removed from the
corresponding exchange's trie (exchanges that no longer exist are skipped,
and their tries are gone with them). -/
theorem delete_queue_cascades (ops : List Op) (Q exName key : String)
    (trie : TopicTrie)
    (h : alistFind? (ZeroMQRouter.delete_queue Q (applyOps ops)).exchanges exName =
      some trie) :
    Q ∉ trie.get_all_matches key :=
  delete_queue_no_match (inv_applyOps ops) Q exName trie h key

/-- Witness for C7: declare `ex1` and `q1`, bind `q1` with key `a.b`, delete
`q1`; the surviving trie matches nothing for `a.b`. -/
theorem delete_queue_cascades_w :
    "q1" ∉ (TopicTrie.mk (Node.mk none []
      [("a", Node.mk (some "a") [] [("b", Node.mk (some "b") [] [])])])).get_all_matches
      "a.b" :=
  delete_queue_cascades
    [.declare_ex "ex1" ⟨"topic", false, true⟩, .declare_q (some "q1"),
     .bind_op "ex1" "q1" "a.b"]
    "q1" "ex1" "a.b"
    (TopicTrie.mk (Node.mk none []
      [("a", Node.mk (some "a") [] [("b", Node.mk (some "b") [] [])])]))
    (by rfl)

/-- C5 amended: `ZeroMQRouter.declare_exchange` accepts its attribute
keywords but never inspects them, so declaring twice always succeeds and
leaves exactly one exchange under the name — also when the attributes
differ (no conflict detection).  The attribute-checking behaviour the claim
describes exists only in `LocalBroker.declare_exchange`: there, redeclaring
with identical `(type, durable, auto_delete)` succeeds and leaves the single
record unchanged, while redeclaring with differing attributes fails with the
declare-conflict assert. -/
theorem declare_exchange_idempotence :
    (∀ (s : RouterState) (n : String) (a1 a2 : ExchangeAttrs),
      alistFind? s.exchanges n = none →
      (ZeroMQRouter.declare_exchange n a1 s).1 = .ok () ∧
      (ZeroMQRouter.declare_exchange n a2
        (ZeroMQRouter.declare_exchange n a1 s).2).1 = .ok () ∧
      (alistKeys ((ZeroMQRouter.declare_exchange n a2
        (ZeroMQRouter.declare_exchange n a1 s).2).2).exchanges).count n = 1) ∧
    (∀ (l : List (String × ExRec)) (n : String) (d ad : Bool),
      alistFind? l n = none →
      (LocalBroker.declare_exchange n "topic" d ad l).1 = .ok true ∧
      (LocalBroker.declare_exchange n "topic" d ad
        (LocalBroker.declare_exchange n "topic" d ad l).2).1 = .ok true ∧
      (LocalBroker.declare_exchange n "topic" d ad
        (LocalBroker.declare_exchange n "topic" d ad l).2).2 =
        (LocalBroker.declare_exchange n "topic" d ad l).2 ∧
      (alistKeys ((LocalBroker.declare_exchange n "topic" d ad l).2)).count n = 1) ∧
    (∀ (l : List (String × ExRec)) (n t2 : String) (d ad d2 ad2 : Bool),
      alistFind? l n = none →
      ¬ ("topic" = t2 ∧ d = d2 ∧ ad = ad2) →
      (LocalBroker.declare_exchange n t2 d2 ad2
        (LocalBroker.declare_exchange n "topic" d ad l).2).1 =
        .error (.declareConflict n) ∧
      (LocalBroker.declare_exchange n t2 d2 ad2
        (LocalBroker.declare_exchange n "topic" d ad l).2).2 =
        (LocalBroker.declare_exchange n "topic" d ad l).2) := by
  refine ⟨?_, ?_, ?_⟩
  · intro s n a1 a2 hfe
    have hnotmem : n ∉ alistKeys s.exchanges := fun hmem =>
      absurd (alistFind_isSome_of_mem _ _ hmem) (by simp [hfe])
    have hs1 : (ZeroMQRouter.declare_exchange n a1 s).2 =
        { s with exchanges := alistSet s.exchanges n TopicTrie.empty } := by
      simp [ZeroMQRouter.declare_exchange, hfe]
    have hfind1 : (alistFind? (alistSet s.exchanges n TopicTrie.empty) n).isSome := by
      simp [alistFind_set_self]
    have hs2 : (ZeroMQRouter.declare_exchange n a2
        (ZeroMQRouter.declare_exchange n a1 s).2).2 =
        { s with exchanges := alistSet s.exchanges n TopicTrie.empty } := by
      rw [hs1]
      simp [ZeroMQRouter.declare_exchange, hfind1]
    refine ⟨rfl, rfl, ?_⟩
    rw [hs2]
    show (alistKeys (alistSet s.exchanges n TopicTrie.empty)).count n = 1
    rw [alistKeys_set, if_neg hnotmem, List.count_append,
      List.count_eq_zero.mpr hnotmem]
    simp
  · intro l n d ad hfl
    have hnotmem : n ∉ alistKeys l := fun hmem =>
      absurd (alistFind_isSome_of_mem _ _ hmem) (by simp [hfl])
    have hs1 : LocalBroker.declare_exchange n "topic" d ad l =
        (.ok true, alistSet l n ⟨n, "topic", d, ad⟩) := by
      simp [LocalBroker.declare_exchange, hfl]
    have hfind1 : alistFind? (alistSet l n ⟨n, "topic", d, ad⟩) n =
        some ⟨n, "topic", d, ad⟩ := alistFind_set_self _ _ _
    have hs2 : LocalBroker.declare_exchange n "topic" d ad
        (alistSet l n ⟨n, "topic", d, ad⟩) =
        (.ok true, alistSet l n ⟨n, "topic", d, ad⟩) := by
      simp [LocalBroker.declare_exchange, hfind1]
    rw [hs1]
    refine ⟨rfl, ?_, ?_, ?_⟩
    · show (LocalBroker.declare_exchange n "topic" d ad
        (alistSet l n ⟨n, "topic", d, ad⟩)).1 = .ok true
      rw [hs2]
    · show (LocalBroker.declare_exchange n "topic" d ad
        (alistSet l n ⟨n, "topic", d, ad⟩)).2 = alistSet l n ⟨n, "topic", d, ad⟩
      rw [hs2]
    · show (alistKeys (alistSet l n ⟨n, "topic", d, ad⟩)).count n = 1
      rw [alistKeys_set, if_neg hnotmem, List.count_append,
        List.count_eq_zero.mpr hnotmem]
      simp
  · intro l n t2 d ad d2 ad2 hfl hdiff
    have hs1 : LocalBroker.declare_exchange n "topic" d ad l =
        (.ok true, alistSet l n ⟨n, "topic", d, ad⟩) := by
      simp [LocalBroker.declare_exchange, hfl]
    have hfind1 : alistFind? (alistSet l n ⟨n, "topic", d, ad⟩) n =
        some ⟨n, "topic", d, ad⟩ := alistFind_set_self _ _ _
    have hs2 : LocalBroker.declare_exchange n t2 d2 ad2
        (alistSet l n ⟨n, "topic", d, ad⟩) =
        (.error (.declareConflict n), alistSet l n ⟨n, "topic", d, ad⟩) := by
      simp only [LocalBroker.declare_exchange, hfind1]
      rw [if_neg hdiff]
    rw [hs1]
    refine ⟨?_, ?_⟩
    · show (LocalBroker.declare_exchange n t2 d2 ad2
        (alistSet l n ⟨n, "topic", d, ad⟩)).1 = .error (.declareConflict n)
      rw [hs2]
    · show (LocalBroker.declare_exchange n t2 d2 ad2
        (alistSet l n ⟨n, "topic", d, ad⟩)).2 = alistSet l n ⟨n, "topic", d, ad⟩
      rw [hs2]

/-- Counterexample to C5 as stated: on the router broker, redeclaring `ex1`
with different attributes (`direct`, durable, non-auto-delete vs the
original `topic`, non-durable, auto-delete) does not fail — it returns
success and leaves the single original exchange. -/
theorem router_declare_exchange_conflict_no_fail :
    (ZeroMQRouter.declare_exchange "ex1" ⟨"direct", true, false⟩
      (ZeroMQRouter.declare_exchange "ex1" ⟨"topic", false, true⟩ initRouter).2).1 =
      .ok () ∧
    ((ZeroMQRouter.declare_exchange "ex1" ⟨"direct", true, false⟩
      (ZeroMQRouter.declare_exchange "ex1" ⟨"topic", false, true⟩ initRouter).2).2).exchanges =
      [("ex1", TopicTrie.empty)] :=
  ⟨rfl, rfl⟩

/-- Witness for C5 amended, at concrete states and attributes. -/
theorem declare_exchange_idempotence_w :
    (ZeroMQRouter.declare_exchange "ex1" ⟨"topic", false, true⟩ initRouter).1 = .ok () ∧
    (LocalBroker.declare_exchange "ex1" "topic" false true
      (LocalBroker.declare_exchange "ex1" "topic" false true []).2).1 = .ok true ∧
    (LocalBroker.declare_exchange "ex1" "direct" false true
      (LocalBroker.declare_exchange "ex1" "topic" false true []).2).1 =
      .error (.declareConflict "ex1") :=
  ⟨(declare_exchange_idempotence.1 initRouter "ex1" ⟨"topic", false, true⟩
      ⟨"topic", false, true⟩ (by rfl)).1,
   (declare_exchange_idempotence.2.1 [] "ex1" false true (by rfl)).2.1,
   (declare_exchange_idempotence.2.2 [] "ex1" "direct" false true false true
      (by rfl) (by simp)).1⟩

/-- C6 amended: the `no_ack` flag passed to `start_consume` is recorded in
the consumer registry but never handed to `_run_consumer`; the worker
records an unacked entry for every message it delivers regardless of
`no_ack`, and a subsequent `ack` or `reject` on that delivery tag succeeds. -/
theorem consumer_worker_ignores_no_ack (s : RouterState) (queue : String)
    (no_ack exclusive : Bool) (ctag : String) (s1 : RouterState)
    (hstart : ZeroMQRouter.start_consume queue no_ack exclusive s = (.ok ctag, s1))
    (ex rkey body : String) (props : List (String × String)) (rest : List QItem)
    (cnt : Nat)
    (hbuf : alistFind? s1.queues queue = some (QItem.msg ex rkey body props :: rest)) :
    (∃ pre, alistFind? s1.consumers queue =
      some (pre ++ [⟨ctag, no_ack, exclusive⟩])) ∧
    ∃ s2, ZeroMQRouter.run_consumer_step ctag queue cnt s1 =
        .delivered ctag false ex rkey (ZeroMQRouter.generate_dtag ctag cnt)
          props body s2 ∧
      alistFind? s2.unacked (ZeroMQRouter.generate_dtag ctag cnt) =
        some (ctag, queue, QItem.msg ex rkey body props) ∧
      (ZeroMQRouter.ack (ZeroMQRouter.generate_dtag ctag cnt) s2).1 = .ok () ∧
      (ZeroMQRouter.reject (ZeroMQRouter.generate_dtag ctag cnt) false s2).1 =
        .ok () := by
  constructor
  · by_cases hf : (alistFind? s.queues queue).isSome
    · cases hp : s.ctag_pool.get_id with
      | mk nid pool =>
        by_cases hc : (alistFind? s.consumers_by_ctag
            (ZeroMQRouter.generate_ctag nid)).isSome
        · have herr : ZeroMQRouter.start_consume queue no_ack exclusive s =
              (.error (.assertionFailed (ZeroMQRouter.generate_ctag nid)),
               { s with ctag_pool := pool }) := by
            simp [ZeroMQRouter.start_consume, hf, hp, hc]
          rw [herr] at hstart
          exact absurd (congrArg Prod.fst hstart) (by simp)
        · have hstate : ZeroMQRouter.start_consume queue no_ack exclusive s =
              (.ok (ZeroMQRouter.generate_ctag nid),
               { s with
                 ctag_pool := pool,
                 consumers := alistSet s.consumers queue
                   ((alistFind? s.consumers queue).getD [] ++
                     [⟨ZeroMQRouter.generate_ctag nid, no_ack, exclusive⟩]),
                 consumers_by_ctag := alistSet s.consumers_by_ctag
                   (ZeroMQRouter.generate_ctag nid) queue }) := by
            simp [ZeroMQRouter.start_consume, hf, hp, hc]
          rw [hstate] at hstart
          injection hstart with h1 h2
          injection h1 with h1
          subst h1
          subst h2
          exact ⟨(alistFind? s.consumers queue).getD [], alistFind_set_self _ _ _⟩
    · have herr : ZeroMQRouter.start_consume queue no_ack exclusive s =
          (.error (.unknownEntity queue), s) := by
        simp [ZeroMQRouter.start_consume, hf]
      rw [herr] at hstart
      exact absurd (congrArg Prod.fst hstart) (by simp)
  · refine ⟨{ s1 with
        queues := alistSet s1.queues queue rest,
        unacked := alistSet s1.unacked (ZeroMQRouter.generate_dtag ctag cnt)
          (ctag, queue, QItem.msg ex rkey body props) }, ?_, ?_, ?_, ?_⟩
    · simp [ZeroMQRouter.run_consumer_step, hbuf]
    · exact alistFind_set_self _ _ _
    · have hsome : (alistFind? (alistSet s1.unacked
          (ZeroMQRouter.generate_dtag ctag cnt)
          (ctag, queue, QItem.msg ex rkey body props))
          (ZeroMQRouter.generate_dtag ctag cnt)).isSome := by
        simp [alistFind_set_self]
      simp [ZeroMQRouter.ack, hsome]
    · simp [ZeroMQRouter.reject, alistFind_set_self]

/-- Counterexample to C6 as stated: start a consumer on `q1` with
`no_ack = true` and run one worker iteration.  The worker still records the
unacked entry for delivery tag `zctag-0-0`, and `ack` on that tag
succeeds — the claim said no entry is created and ack fails. -/
theorem no_ack_consumer_records_unacked :
    (ZeroMQRouter.start_consume "q1" true false
      { initRouter with queues := [("q1", [QItem.msg "ex1" "a" "hello" []])] }).1 =
      .ok "zctag-0" ∧
    alistFind?
      (((ZeroMQRouter.run_consumer_step "zctag-0" "q1" 0
        (ZeroMQRouter.start_consume "q1" true false
          { initRouter with
            queues := [("q1", [QItem.msg "ex1" "a" "hello" []])] }).2).stateD
        (ZeroMQRouter.start_consume "q1" true false
          { initRouter with
            queues := [("q1", [QItem.msg "ex1" "a" "hello" []])] }).2).unacked)
      "zctag-0-0" = some ("zctag-0", "q1", QItem.msg "ex1" "a" "hello" []) ∧
    (ZeroMQRouter.ack "zctag-0-0"
      ((ZeroMQRouter.run_consumer_step "zctag-0" "q1" 0
        (ZeroMQRouter.start_consume "q1" true false
          { initRouter with
            queues := [("q1", [QItem.msg "ex1" "a" "hello" []])] }).2).stateD
        (ZeroMQRouter.start_consume "q1" true false
          { initRouter with
            queues := [("q1", [QItem.msg "ex1" "a" "hello" []])] }).2)).1 = .ok () :=
  ⟨rfl, rfl, rfl⟩

/-- Witness for C6 amended, at the same concrete scenario with
`no_ack = true`. -/
theorem consumer_worker_ignores_no_ack_w :
    ∃ s2, ZeroMQRouter.run_consumer_step "zctag-0" "q1" 0
        (ZeroMQRouter.start_consume "q1" true false
          { initRouter with
            queues := [("q1", [QItem.msg "ex1" "a" "hello" []])] }).2 =
        .delivered "zctag-0" false "ex1" "a"
          (ZeroMQRouter.generate_dtag "zctag-0" 0) [] "hello" s2 ∧
      alistFind? s2.unacked (ZeroMQRouter.generate_dtag "zctag-0" 0) =
        some ("zctag-0", "q1", QItem.msg "ex1" "a" "hello" []) ∧
      (ZeroMQRouter.ack (ZeroMQRouter.generate_dtag "zctag-0" 0) s2).1 = .ok () ∧
      (ZeroMQRouter.reject (ZeroMQRouter.generate_dtag "zctag-0" 0) false s2).1 =
        .ok () :=
  (consumer_worker_ignores_no_ack
    { initRouter with queues := [("q1", [QItem.msg "ex1" "a" "hello" []])] }
    "q1" true false "zctag-0"
    (ZeroMQRouter.start_consume "q1" true false
      { initRouter with queues := [("q1", [QItem.msg "ex1" "a" "hello" []])] }).2
    (by rfl) "ex1" "a" "hello" [] [] 0 (by rfl)).2

/-- Lowercase-hex character test (Python `uuid` renders UUIDs with `0-9a-f`). -/
def isHexChar (c : Char) : Bool := c.isDigit || ('a' ≤ c && c ≤ 'f')

/-- Modelled from the spec and the Python standard library: `uuid4` is
imported from the standard library, not part of the sources.  `str(uuid4())`
is 36 characters, `xxxxxxxx-xxxx-4xxx-yxxx-xxxxxxxxxxxx`, lowercase hex with
hyphens; only the first ten characters matter for the minted queue name:
eight hex digits, a hyphen, one hex digit. -/
def uuid4_shape (u : String) : Prop :=
  ∃ (a : List Char) (c : Char) (rest : List Char),
    u.toList = a ++ '-' :: c :: rest ∧ a.length = 8 ∧
    (∀ x ∈ a, isHexChar x) ∧ isHexChar c

theorem mint_spec (gen : Nat → String) (queues : List (String × List QItem)) :
    ∀ (fuel k : Nat) (name : String),
      ZeroMQRouter.mint_queue_name gen queues fuel k = some name →
      ∃ j, k ≤ j ∧ name = "q-" ++ ZeroMQRouter.take10 (gen j) ∧
        alistFind? queues name = none ∧
        ∀ i, k ≤ i → i < j →
          (alistFind? queues ("q-" ++ ZeroMQRouter.take10 (gen i))).isSome := by
  intro fuel
  induction fuel with
  | zero =>
    intro k name h
    exact absurd h (by simp [ZeroMQRouter.mint_queue_name])
  | succ fuel ih =>
    intro k name h
    by_cases hf : (alistFind? queues ("q-" ++ ZeroMQRouter.take10 (gen k))).isSome
    · have hstep : ZeroMQRouter.mint_queue_name gen queues (fuel + 1) k =
          ZeroMQRouter.mint_queue_name gen queues fuel (k + 1) := by
        simp [ZeroMQRouter.mint_queue_name, hf]
      rw [hstep] at h
      obtain ⟨j, hkj, hname, hnone, hcoll⟩ := ih (k + 1) name h
      refine ⟨j, by omega, hname, hnone, ?_⟩
      intro i hki hij
      by_cases hik : i = k
      · subst hik
        exact hf
      · exact hcoll i (by omega) hij
    · have hstep : ZeroMQRouter.mint_queue_name gen queues (fuel + 1) k =
          some ("q-" ++ ZeroMQRouter.take10 (gen k)) := by
        simp [ZeroMQRouter.mint_queue_name, hf]
      rw [hstep] at h
      have hname : "q-" ++ ZeroMQRouter.take10 (gen k) = name :=
        Option.some_injective _ h
      refine ⟨k, Nat.le_refl k, hname.symm, ?_, ?_⟩
      · rw [← hname]
        cases hcase : alistFind? queues ("q-" ++ ZeroMQRouter.take10 (gen k)) with
        | none => rfl
        | some v =>
          rw [hcase] at hf
          exact absurd (by simp) hf
      · intro i hki hik
        exact absurd (Nat.lt_of_le_of_lt hki hik) (Nat.lt_irrefl k)

/-- C8 amended: with an empty or unspecified queue name, `declare_queue`
mints `q-` followed by the **first ten characters of a `str(uuid4())` draw**
— eight hex digits, a hyphen and one hex digit, not ten alphanumeric
characters — retrying on collision until the name is not in the queue map,
creates a queue with an empty buffer under that name, and returns it. -/
theorem declare_queue_minting (gen : Nat → String)
    (hgen : ∀ k, uuid4_shape (gen k)) (q : Option String)
    (hempty : q = none ∨ q = some "") (fuel : Nat) (s : RouterState)
    (name : String) (s1 : RouterState)
    (h : ZeroMQRouter.declare_queue q gen fuel s = some (name, s1)) :
    (∃ j, name = "q-" ++ ZeroMQRouter.take10 (gen j) ∧
      ∀ i, i < j → (alistFind? s.queues ("q-" ++ ZeroMQRouter.take10 (gen i))).isSome) ∧
    alistFind? s.queues name = none ∧
    alistFind? s1.queues name = some [] ∧
    ∃ (a : List Char) (c : Char), name.toList = 'q' :: '-' :: (a ++ '-' :: [c]) ∧
      a.length = 8 ∧ (∀ x ∈ a, isHexChar x) ∧ isHexChar c := by
  have hsel : ZeroMQRouter.declare_queue q gen fuel s =
      (match ZeroMQRouter.mint_queue_name gen s.queues fuel 0 with
       | none => none
       | some qn => some (qn,
          if (alistFind? s.queues qn).isSome then s
          else { s with queues := alistSet s.queues qn [] })) := by
    rcases hempty with rfl | rfl
    · rfl
    · simp [ZeroMQRouter.declare_queue]
  rw [hsel] at h
  cases hm : ZeroMQRouter.mint_queue_name gen s.queues fuel 0 with
  | none =>
    rw [hm] at h
    exact absurd h (by simp)
  | some qn =>
    rw [hm] at h
    simp only [Option.some.injEq, Prod.mk.injEq] at h
    obtain ⟨rfl, hs1⟩ := h
    obtain ⟨j, h0j, hname, hnone, hcoll⟩ := mint_spec gen s.queues fuel 0 qn hm
    have hfalse : ¬ (alistFind? s.queues qn).isSome = true := by simp [hnone]
    rw [if_neg hfalse] at hs1
    refine ⟨⟨j, hname, fun i hij => hcoll i (Nat.zero_le i) hij⟩, hnone, ?_, ?_⟩
    · rw [← hs1]
      exact alistFind_set_self _ _ _
    · obtain ⟨a, c, rest, hu, hlen, hhex, hc⟩ := hgen j
      refine ⟨a, c, ?_, hlen, hhex, hc⟩
      rw [hname]
      have htake : (gen j).toList.take 10 = a ++ ['-', c] := by
        rw [hu, List.take_append_eq_append_take, hlen,
          List.take_of_length_le (show a.length ≤ 10 by omega)]
        rfl
      have happ : ("q-" ++ ZeroMQRouter.take10 (gen j)).toList =
          "q-".toList ++ (ZeroMQRouter.take10 (gen j)).toList := by
        simp [String.toList, String.data_append]
      rw [happ,
        show (ZeroMQRouter.take10 (gen j)).toList = (gen j).toList.take 10 from rfl,
        htake]
      rfl

/-- Counterexample to C8 as stated: with a `uuid4` draw
`ab12cd34-e5f6-4a7b-8c9d-0123456789ab`, the minted name is
`q-ab12cd34-e` — the ten characters following `q-` contain a hyphen at
position 9 (they are the first ten characters of the UUID string), so they
are not ten alphanumeric characters. -/
theorem minted_queue_name_not_alphanumeric :
    ZeroMQRouter.declare_queue none
      (fun _ => "ab12cd34-e5f6-4a7b-8c9d-0123456789ab") 5 initRouter =
      some ("q-ab12cd34-e",
        { initRouter with queues := [("q-ab12cd34-e", [])] }) ∧
    ("ab12cd34-e".toList.all Char.isAlphanum) = false := by
  constructor
  · rfl
  · decide

/-- Witness for C8 amended at the same concrete draw: the minted queue is
created with an empty buffer. -/
theorem declare_queue_minting_w :
    alistFind? ({ initRouter with
      queues := [("q-ab12cd34-e", [])] } : RouterState).queues "q-ab12cd34-e" =
      some [] :=
  (declare_queue_minting (fun _ => "ab12cd34-e5f6-4a7b-8c9d-0123456789ab")
    (fun _ => ⟨"ab12cd34".toList, 'e', "5f6-4a7b-8c9d-0123456789ab".toList,
      by
        show ("ab12cd34-e5f6-4a7b-8c9d-0123456789ab" : String).toList =
          "ab12cd34".toList ++ '-' :: 'e' :: "5f6-4a7b-8c9d-0123456789ab".toList
        decide,
      by decide, by decide, by decide⟩)
    none (Or.inl rfl) 5 initRouter "q-ab12cd34-e"
    { initRouter with queues := [("q-ab12cd34-e", [])] } (by rfl)).2.2.1

end Pyon
